import Mathlib

/-!
# SPI NOR-flash driver (`spiflash.c`): shallow embedding

The driver talks to the outside world through four primitives only:
`gpio_enable`, `gpio_write` (the chip-select line), `spi_tx8` and `spi_rx8`
(plus `spi_init` and `vTaskDelay`).  The embedding threads an explicit, chronological
trace of these bus events through every function.  The device on the other side of the
bus is an arbitrary deterministic function of the history of bus events so far: it
decides the byte that the next `spi_rx8` returns.

Machine integers are natural numbers / integers with explicit reductions modulo `2^w`.
Array accesses outside a static array and exhausted loop fuel are explicit faults.
-/

namespace SpiFlash

/-! ## Constants (`#define`s of spiflash.c) -/

def CMD_GETID : Nat := 0x9f
def CMD_READ_STATUS : Nat := 0x05
def CMD_WRITE_ENABLE : Nat := 0x06
def CMD_WRITE_DISABLE : Nat := 0x04
def CMD_PAGE_PROGRAM : Nat := 0x02
def CMD_READ_DATA : Nat := 0x03
def CMD_READ_DATA_HISPD : Nat := 0x0b
def CMD_ERASE_SECTOR : Nat := 0xd8
def CMD_ERASE_SUBSECTOR : Nat := 0x20
def CMD_ERASE_CHIP : Nat := 0xc7

def STATUS_WIP : Nat := 1 <<< 0
def STATUS_WEL : Nat := 1 <<< 1

def SUBSECTOR_SIZE : Nat := 4 * 1024
def SECTOR_SIZE : Nat := 64 * 1024
def PAGE_PROGRAM_SIZE : Nat := 256
def MAX_CHIPS : Nat := 4

/-! ## Data model -/

/-- One row of the chip registry (`spi_flash_t`).  `description = none` is the C null
pointer of the end marker. -/
structure spi_flash_t where
  manufacturer : Nat
  jedecid : Nat
  size : Nat
  description : Option String
deriving DecidableEq

/-- The registry `flashes[]`: one supported chip followed by the end marker. -/
def flashes : List spi_flash_t :=
  [ { manufacturer := 0x20, jedecid := 0x7114, size := 1024 * 1024,
      description := some "Micron M25PX80" },
    { manufacturer := 0, jedecid := 0, size := 0, description := none } ]

/-- The attached-chip table: the three file-scope statics `cs_pins[MAX_CHIPS]`,
`flash_types[MAX_CHIPS]` and `chip_count`. -/
structure Chips where
  cs_pins : List Nat
  flash_types : List Nat
  chip_count : Nat
deriving DecidableEq

/-- Zero-initialised statics at program start. -/
def Chips.empty : Chips :=
  { cs_pins := [0, 0, 0, 0], flash_types := [0, 0, 0, 0], chip_count := 0 }

/-- What can go wrong outside of the C semantics proper. -/
inductive Fault where
  | outOfBounds
  | outOfFuel
deriving DecidableEq

/-- One observable action on the bus, in the order the driver performs them. -/
inductive BusEvent where
  | gpio_enable (pin : Nat)
  | spi_init
  | gpio_write (pin : Nat) (level : Nat)
  | tx (byte : Nat)
  | rx (byte : Nat)
deriving DecidableEq

abbrev Trace := List BusEvent

/-- The device side of the bus: the byte clocked in by the next `spi_rx8`, as a function
of everything that happened on the bus so far. -/
abbrev Bus := Trace → Nat

/-! ## Machine arithmetic helpers -/

/-- Conversion of a C `int32_t` value to `uint32_t`. -/
def toU32 (i : Int) : Nat := (i % 4294967296).toNat

/-- Conversion of a C `uint32_t` value to `int32_t` (twos complement). -/
def toI32 (n : Nat) : Int :=
  if n % 4294967296 < 2147483648 then ((n % 4294967296 : Nat) : Int)
  else ((n % 4294967296 : Nat) : Int) - 4294967296

/-- Bitwise complement on 32 bits. -/
def not32 (n : Nat) : Nat := 4294967295 - n % 4294967296

/-- Read of `xs[i]` for a static array; indices outside the array are a fault. -/
def arrayLoad {α : Type} (xs : List α) (i : Int) : Except Fault α :=
  if i < 0 then .error .outOfBounds
  else match xs[i.toNat]? with
    | some v => .ok v
    | none => .error .outOfBounds

/-- Store `xs[i] = v` for a static array; indices outside the array are a fault. -/
def arrayStore (xs : List Nat) (i : Nat) (v : Nat) : Except Fault (List Nat) :=
  if i < xs.length then .ok (xs.set i v) else .error .outOfBounds

/-! ## Bus primitives -/

def gpio_enable (pin : Nat) (tr : Trace) : Trace := tr ++ [.gpio_enable pin]

def spi_init (tr : Trace) : Trace := tr ++ [.spi_init]

def gpio_write (pin : Nat) (level : Nat) (tr : Trace) : Trace := tr ++ [.gpio_write pin level]

/-- Modelled from the spec: `spi_tx8` (spi.h is not part of the sources) shifts out one
byte, the low eight bits of its argument. -/
def spi_tx8 (data : Nat) (tr : Trace) : Trace := tr ++ [.tx (data % 256)]

/-- Modelled from the spec: `spi_rx8` (spi.h is not part of the sources) clocks in the one
byte the device presents. -/
def spi_rx8 (bus : Bus) (tr : Trace) : Nat × Trace :=
  (bus tr % 256, tr ++ [.rx (bus tr % 256)])

/-- The `delay_ms` of the source (`vTaskDelay`): time is not modelled, the bus trace is
left as it is. -/
def delay_ms (_t : Nat) (tr : Trace) : Trace := tr

def chip_select (cs_pin : Nat) (tr : Trace) : Trace := gpio_write cs_pin 0 tr

def chip_unselect (cs_pin : Nat) (tr : Trace) : Trace := gpio_write cs_pin 1 tr

/-! ## Command primitives -/

def read_status (bus : Bus) (cs_pin : Nat) (tr : Trace) : Nat × Trace :=
  let tr := chip_select cs_pin tr
  let tr := spi_tx8 CMD_READ_STATUS tr
  let (status, tr) := spi_rx8 bus tr
  let tr := chip_unselect cs_pin tr
  (status, tr)

def flash_cmd (cs_pin : Nat) (cmd : Nat) (tr : Trace) : Trace :=
  let tr := chip_select cs_pin tr
  let tr := spi_tx8 cmd tr
  chip_unselect cs_pin tr

def write_enable (cs_pin : Nat) (tr : Trace) : Trace := flash_cmd cs_pin CMD_WRITE_ENABLE tr

def write_disable (cs_pin : Nat) (tr : Trace) : Trace := flash_cmd cs_pin CMD_WRITE_DISABLE tr

/-- The `do ... while` scan of `check_flash`, started at index `rover`; the first argument
bounds the number of rows still available in the table. -/
def check_flash_from (table : List spi_flash_t) (manufacturer jedecid : Nat) :
    Nat → Nat → Except Fault Int
  | 0, _ => .error .outOfBounds
  | n + 1, rover =>
    match table[rover]? with
    | none => .error .outOfBounds
    | some e =>
      if e.manufacturer = manufacturer ∧ e.jedecid = jedecid then .ok (toI32 rover)
      else match table[rover + 1]? with
        | none => .error .outOfBounds
        | some e1 =>
          if e1.manufacturer ≠ 0 then check_flash_from table manufacturer jedecid n (rover + 1)
          else .ok (-1)

def check_flash (manufacturer jedecid : Nat) : Except Fault Int :=
  check_flash_from flashes manufacturer jedecid flashes.length 0

/-- Clock in `n` bytes one after the other (`for`/`while` loops around `spi_rx8`). -/
def rx_bytes (bus : Bus) : Nat → Trace → List Nat × Trace
  | 0, tr => ([], tr)
  | n + 1, tr =>
    let (b, tr1) := spi_rx8 bus tr
    let (bs, tr2) := rx_bytes bus n tr1
    (b :: bs, tr2)

/-! ## Block operations -/

/-- The function `spiflash_probe`.  Returns the C return value, the new attached-chip table and the
bus trace. -/
def spiflash_probe (bus : Bus) (st : Chips) (cs_pin : Nat) (tr : Trace) :
    Except Fault (Int × Chips × Trace) :=
  let cur_chip := st.chip_count
  -- uint32_t flash_idx = -1;
  let flash_idx0 : Nat := toU32 (-1)
  let tr := gpio_enable cs_pin tr
  let tr := chip_unselect cs_pin tr
  let tr := spi_init tr
  let tr := chip_select cs_pin tr
  let tr := spi_tx8 CMD_GETID tr
  let (info, tr) := rx_bytes bus 20 tr
  let tr := chip_unselect cs_pin tr
  let looked : Except Fault Nat :=
    if info.getD 0 0 ≠ 0xff then
      match check_flash (info.getD 0 0) ((info.getD 1 0 <<< 8 ||| info.getD 2 0) % 65536) with
      | .ok r => .ok (toU32 r)
      | .error e => .error e
    else .ok flash_idx0
  match looked with
  | .error e => .error e
  | .ok flash_idx =>
    -- `flash_idx` is unsigned: the comparison is between naturals
    if flash_idx ≥ 0 then
      match arrayStore st.cs_pins st.chip_count cs_pin with
      | .error e => .error e
      | .ok cs_pins =>
        match arrayStore st.flash_types st.chip_count (flash_idx % 256) with
        | .error e => .error e
        | .ok flash_types =>
          .ok ((cur_chip : Int),
               { cs_pins := cs_pins, flash_types := flash_types,
                 chip_count := (st.chip_count + 1) % 256 }, tr)
    else .ok (-1, st, tr)

/-- The output cells of `spiflash_info`: `none` is a null pointer argument, `some v` a
pointer to a cell currently holding `v`. -/
structure InfoCells where
  manufacturer : Option Nat
  jedecid : Option Nat
  size : Option Nat
  descr : Option (Option String)
deriving DecidableEq

/-- The function `spiflash_info`: copies the fields of `flashes[fd]` into the non-null output cells. -/
def spiflash_info (fd : Int) (out : InfoCells) (tr : Trace) :
    Except Fault (InfoCells × Trace) :=
  if fd < MAX_CHIPS then
    match arrayLoad flashes fd with
    | .error e =>
      -- a row is only read when at least one output pointer is non-null
      if out.manufacturer.isSome ∨ out.jedecid.isSome ∨ out.size.isSome ∨ out.descr.isSome
      then .error e else .ok (out, tr)
    | .ok row =>
      .ok ({ manufacturer := out.manufacturer.map (fun _ => row.manufacturer),
             jedecid := out.jedecid.map (fun _ => row.jedecid),
             size := out.size.map (fun _ => row.size),
             descr := out.descr.map (fun _ => row.description) }, tr)
  else .ok (out, tr)

/-- The function `spiflash_read`.  The buffer is the list of bytes starting at the pointer (`none` is
the null pointer); the region of the caller is taken to be long enough for the stores made
through it. -/
def spiflash_read (bus : Bus) (st : Chips) (fd : Int) (address length : Nat)
    (buffer : Option (List Nat)) (tr : Trace) :
    Except Fault (Bool × Option (List Nat) × Trace) :=
  match buffer with
  | none => .ok (false, none, tr)
  | some buf =>
    if fd < MAX_CHIPS then
      match arrayLoad st.cs_pins fd with
      | .error e => .error e
      | .ok cs =>
        let tr := chip_select cs tr
        let tr := spi_tx8 CMD_READ_DATA tr
        let tr := spi_tx8 (address >>> 16) tr
        let tr := spi_tx8 (address >>> 8) tr
        let tr := spi_tx8 address tr
        let (data, tr) := rx_bytes bus length tr
        let tr := chip_unselect cs tr
        .ok (true, some (data ++ buf.drop length), tr)
    else .ok (false, some buf, tr)

/-- The inner loop of `spiflash_write`: `while(chunk_size--) spi_tx8(*(buffer++))`.
Bytes past the end of the given list read as 0. -/
def tx_chunk : Nat → List Nat → Trace → List Nat × Trace
  | 0, buffer, tr => (buffer, tr)
  | n + 1, buffer, tr => tx_chunk n buffer.tail (spi_tx8 (buffer.headD 0) tr)

/-- The busy-poll loops `while(read_status(cs) & STATUS_WIP) delay_ms(ms);` -/
def wait_wip (bus : Bus) (cs : Nat) (ms : Nat) : Nat → Trace → Except Fault Trace
  | 0, _ => .error .outOfFuel
  | fuel + 1, tr =>
    let (status, tr) := read_status bus cs tr
    if status &&& STATUS_WIP ≠ 0 then wait_wip bus cs ms fuel (delay_ms ms tr)
    else .ok tr

/-- The `while(remain > 0)` loop of `spiflash_write`.  The result `false` is the early
`return false`. -/
def write_loop (bus : Bus) (st : Chips) (fd : Int) :
    Nat → Int → Nat → List Nat → Trace → Except Fault (Bool × Trace)
  | 0, _, _, _, _ => .error .outOfFuel
  | fuel + 1, remain, address, buffer, tr =>
    if remain > 0 then
      -- uint8_t chunk_size = remain > PAGE_PROGRAM_SIZE ? PAGE_PROGRAM_SIZE : remain;
      let chunk_size : Nat :=
        (if remain > PAGE_PROGRAM_SIZE then (PAGE_PROGRAM_SIZE : Int) else remain).toNat % 256
      match arrayLoad st.cs_pins fd with
      | .error e => .error e
      | .ok cs =>
        let tr := write_enable cs tr
        let (status, tr) := read_status bus cs tr
        if status &&& STATUS_WEL = 0 then .ok (false, tr)
        else
          let tr := chip_select cs tr
          let tr := spi_tx8 CMD_PAGE_PROGRAM tr
          let tr := spi_tx8 (address >>> 16) tr
          let tr := spi_tx8 (address >>> 8) tr
          let tr := spi_tx8 address tr
          let (buffer, tr) := tx_chunk chunk_size buffer tr
          let tr := chip_unselect cs tr
          let tr := write_disable cs tr
          match wait_wip bus cs 1 fuel tr with
          | .error e => .error e
          | .ok tr =>
            write_loop bus st fd fuel (remain - PAGE_PROGRAM_SIZE)
              ((address + PAGE_PROGRAM_SIZE) % 4294967296) buffer tr
    else .ok (true, tr)

/-- The function `spiflash_write`; `fuel` bounds the number of iterations of each loop. -/
def spiflash_write (bus : Bus) (st : Chips) (fuel : Nat) (fd : Int) (address length : Nat)
    (buffer : List Nat) (tr : Trace) : Except Fault (Bool × Trace) :=
  if fd < MAX_CHIPS then
    -- int32_t remain = length;
    write_loop bus st fd fuel (toI32 length) address buffer tr
  else .ok (false, tr)

/-- The `while (end_address > address_aligned)` loop of `spiflash_erase`.  The result
`false` is the early `return false`. -/
def erase_loop (bus : Bus) (cs : Nat) :
    Nat → Nat → Nat → Trace → Except Fault (Bool × Trace)
  | 0, _, _, _ => .error .outOfFuel
  | fuel + 1, end_address, address_aligned, tr =>
    if end_address > address_aligned then
      let tr := write_enable cs tr
      let (status, tr) := read_status bus cs tr
      if status &&& STATUS_WEL = 0 then .ok (false, tr)
      else
        let tr := chip_select cs tr
        let tr := spi_tx8 CMD_ERASE_SUBSECTOR tr
        let tr := spi_tx8 (address_aligned >>> 16) tr
        let tr := spi_tx8 (address_aligned >>> 8) tr
        let tr := spi_tx8 address_aligned tr
        let tr := chip_unselect cs tr
        let tr := delay_ms 70 tr
        match wait_wip bus cs 5 fuel tr with
        | .error e => .error e
        | .ok tr =>
          erase_loop bus cs fuel end_address ((address_aligned + SUBSECTOR_SIZE) % 4294967296) tr
    else .ok (true, tr)

/-- The function `spiflash_erase`; `fuel` bounds the number of iterations of each loop. -/
def spiflash_erase (bus : Bus) (st : Chips) (fuel : Nat) (fd : Int) (address length : Nat)
    (tr : Trace) : Except Fault (Bool × Trace) :=
  if fd < MAX_CHIPS then
    let address_aligned := address &&& not32 (SUBSECTOR_SIZE - 1)
    let end_address := (address + length) % 4294967296
    -- `length += address & ~(SUBSECTOR_SIZE-1);` only feeds a debug print
    match arrayLoad st.cs_pins fd with
    | .error e => .error e
    | .ok cs =>
      match erase_loop bus cs fuel end_address address_aligned tr with
      | .error e => .error e
      | .ok (false, tr) => .ok (false, tr)
      | .ok (true, tr) => .ok (true, write_disable cs tr)
  else .ok (false, tr)

/-- The `while(1)` loop of `spiflash_chip_erase`. -/
def chip_erase_loop (bus : Bus) (cs : Nat) : Nat → Trace → Except Fault (Bool × Trace)
  | 0, _ => .error .outOfFuel
  | fuel + 1, tr =>
    let (status, tr) := read_status bus cs tr
    if status &&& STATUS_WIP = 0 then .ok (true, tr)
    else chip_erase_loop bus cs fuel (delay_ms 25 tr)

/-- The function `spiflash_chip_erase`; `fuel` bounds the number of status polls. -/
def spiflash_chip_erase (bus : Bus) (st : Chips) (fuel : Nat) (fd : Int) (tr : Trace) :
    Except Fault (Bool × Trace) :=
  if fd < MAX_CHIPS then
    match arrayLoad st.cs_pins fd with
    | .error e => .error e
    | .ok cs =>
      let tr := write_enable cs tr
      let (status, tr) := read_status bus cs tr
      if status &&& STATUS_WEL = 0 then .ok (false, tr)
      else
        -- the opcode goes through an `int8_t` parameter and back to `uint8_t`
        let tr := flash_cmd cs CMD_ERASE_CHIP tr
        chip_erase_loop bus cs fuel tr
  else .ok (false, tr)

/-! ## Vocabulary for stating properties -/

deriving instance DecidableEq for Except

/-- The handle `fd` was returned by a successful probe of a table within its capacity. -/
def Attached (st : Chips) (fd : Int) : Prop :=
  0 ≤ fd ∧ fd < st.chip_count ∧ st.chip_count ≤ MAX_CHIPS ∧
    st.cs_pins.length = MAX_CHIPS ∧ st.flash_types.length = MAX_CHIPS

instance (st : Chips) (fd : Int) : Decidable (Attached st fd) := by
  unfold Attached; infer_instance

/-- Bytes shifted out from the start of a trace up to the next change of a chip-select
line. -/
def txRun : Trace → List Nat
  | [] => []
  | .tx b :: rest => b :: txRun rest
  | .gpio_write _ _ :: _ => []
  | _ :: rest => txRun rest

/-- The commands of a trace: for every chip-select assertion (level 0), the bytes shifted
out while the line stays asserted; the first byte is the opcode. -/
def transactions : Trace → List (List Nat)
  | [] => []
  | .gpio_write _ 0 :: rest => txRun rest :: transactions rest
  | _ :: rest => transactions rest

/-- Does a command start with the opcode `op`? -/
def hasOpcode (op : Nat) (t : List Nat) : Bool := t.head? == some op

/-- The commands of a trace with opcode `op`. -/
def commandsWith (op : Nat) (tr : Trace) : List (List Nat) :=
  (transactions tr).filter (hasOpcode op)

/-- The erase commands of a trace, of any granularity. -/
def eraseCommands (tr : Trace) : List (List Nat) :=
  (transactions tr).filter
    (fun t => hasOpcode CMD_ERASE_SUBSECTOR t || hasOpcode CMD_ERASE_SECTOR t ||
      hasOpcode CMD_ERASE_CHIP t)

/-- An opcode followed by a 3-byte big-endian address. -/
def addressed (op : Nat) (a : Nat) : List Nat :=
  [op, a / 65536 % 256, a / 256 % 256, a % 256]

/-- The bus events of one status read that returned `s` on chip-select pin `cs`. -/
def statusEvents (cs s : Nat) : Trace :=
  [.gpio_write cs 0, .tx CMD_READ_STATUS, .rx s, .gpio_write cs 1]

/-- The bus events of a single-byte command on chip-select pin `cs`. -/
def cmdEvents (cs op : Nat) : Trace :=
  [.gpio_write cs 0, .tx op, .gpio_write cs 1]

/-- The bus events of a transaction on pin `cs` that only shifts bytes out. -/
def txEvents (cs : Nat) (bytes : List Nat) : Trace :=
  .gpio_write cs 0 :: (bytes.map BusEvent.tx ++ [.gpio_write cs 1])

/-- A stretch of bus activity whose commands do not depend on what follows it: every
transaction begun in it is also ended in it. -/
def Closed (tr : Trace) : Prop :=
  ∀ rest : Trace, transactions (tr ++ rest) = transactions tr ++ transactions rest

/-- Every command of the list is a page program carrying at most 256 data bytes, the
first one at address `a` and each further one 256 bytes after its predecessor. -/
def PagePrograms : Nat → List (List Nat) → Prop
  | _, [] => True
  | a, t :: ts =>
    (∃ data : List Nat, t = addressed CMD_PAGE_PROGRAM a ++ data ∧ data.length ≤ 256) ∧
      PagePrograms (a + 256) ts

/-- The trace after `k` consecutive status reads on pin `cs`, starting from `tr`. -/
def status_polls (bus : Bus) (cs : Nat) : Nat → Trace → Trace
  | 0, tr => tr
  | k + 1, tr => status_polls bus cs k (read_status bus cs tr).2

/-- The device shows the write-enable latch set in the status read that follows a
write-enable command. -/
def WelAfterWriteEnable (bus : Bus) (cs : Nat) : Prop :=
  ∀ tr : Trace, (read_status bus cs (write_enable cs tr)).1 &&& STATUS_WEL ≠ 0

/-- Whatever happened before, repeated status reads eventually show write-in-progress
clear. -/
def WipEventuallyClear (bus : Bus) (cs : Nat) : Prop :=
  ∀ tr : Trace, ∃ k : Nat,
    (read_status bus cs (status_polls bus cs k tr)).1 &&& STATUS_WIP = 0

/-- Number of bytes clocked in since the last event that was not a receive. -/
def trailingRx (tr : Trace) : Nat :=
  (tr.reverse.takeWhile (fun e => match e with | .rx _ => true | _ => false)).length

/-- A device that answers the get-ID command with the three ID bytes of
`(manufacturer, jedecid)` followed by zeros. -/
def idBus (manufacturer jedecid : Nat) : Bus :=
  fun tr => [manufacturer, jedecid >>> 8, jedecid % 256].getD (trailingRx tr) 0

/-- A device whose status register always reads `STATUS_WEL` (latch set, not busy). -/
def readyBus : Bus := fun _ => STATUS_WEL

/-- A device whose status register reads latch set and busy (`STATUS_WEL | STATUS_WIP`)
until 20 bus events have passed, and latch set and ready afterwards. -/
def slowBus : Bus := fun tr => if tr.length < 20 then 3 else 2

/-- A table with one chip attached on chip-select pin 5. -/
def oneChip : Chips :=
  { cs_pins := [5, 0, 0, 0], flash_types := [0, 0, 0, 0], chip_count := 1 }

/-! ## A simulated flash device

The test device of the round-trip property: a page-program command stores the data bytes
that follow its 3-byte address at consecutive addresses, a read-data command returns the
stored bytes, and the status register always shows the write-enable latch set and
write-in-progress clear. -/

/-- Decoder state of the simulated device. -/
inductive SimMode where
  | idle
  | opcode
  | addr (cmd : Nat) (got : List Nat)
  | program (a : Nat)
  | reading (a : Nat)
  | status
  | other
deriving DecidableEq

structure SimFlash where
  mem : Nat → Nat
  mode : SimMode

/-- Effect of one bus event on the simulated device. -/
def simStep (d : SimFlash) : BusEvent → SimFlash
  | .gpio_write _ 0 => { d with mode := .opcode }
  | .gpio_write _ _ => { d with mode := .idle }
  | .tx b =>
    match d.mode with
    | .opcode =>
      if b = CMD_PAGE_PROGRAM ∨ b = CMD_READ_DATA then { d with mode := .addr b [] }
      else if b = CMD_READ_STATUS then { d with mode := .status }
      else { d with mode := .other }
    | .addr cmd got =>
      match got with
      | [a2, a1] =>
        let a := a2 * 65536 + a1 * 256 + b
        if cmd = CMD_PAGE_PROGRAM then { d with mode := .program a }
        else { d with mode := .reading a }
      | _ => { d with mode := .addr cmd (got ++ [b]) }
    | .program a =>
      { mem := fun x => if x = a then b else d.mem x, mode := .program (a + 1) }
    | _ => d
  | .rx _ =>
    match d.mode with
    | .reading a => { d with mode := .reading (a + 1) }
    | _ => d
  | _ => d

/-- The byte the simulated device presents to the next receive. -/
def simResponse (d : SimFlash) : Nat :=
  match d.mode with
  | .reading a => d.mem a
  | .status => STATUS_WEL
  | _ => 0xff

/-- The simulated device as a bus, with initial memory contents `mem0`. -/
def simBus (mem0 : Nat → Nat) : Bus :=
  fun tr => simResponse (tr.foldl simStep { mem := mem0, mode := .idle })

/-- Memory of an erased flash: every byte reads 0xFF. -/
def erasedMem : Nat → Nat := fun _ => 0xff

/-- Probe the pins of a list one after the other; the handles returned, in order. -/
def probe_all (bus : Bus) : List Nat → Chips → Trace → Except Fault (List Int × Chips × Trace)
  | [], st, tr => .ok ([], st, tr)
  | pin :: pins, st, tr =>
    match spiflash_probe bus st pin tr with
    | .error e => .error e
    | .ok (h, st1, tr1) =>
      match probe_all bus pins st1 tr1 with
      | .error e => .error e
      | .ok (hs, st2, tr2) => .ok (h :: hs, st2, tr2)

/-! ## The chip-select discipline of one call -/

/-- State of the chip-select line as seen from within one call. -/
inductive Line where
  | fresh
  | asserted (pin : Nat)
  | released
deriving DecidableEq

/-- One bus event against the discipline; `none` is a violation.  In `fresh` no assertion
has been made yet in the call, in `asserted pin` the line of `pin` is held low, in
`released` the last assertion has been answered by its one deassertion.  An assertion
(level 0) is only allowed while no line is asserted; bytes are only exchanged while a line
is asserted; an asserted line is deasserted by its own pin; a deassertion that does not
answer an assertion is only allowed before the first assertion of the call. -/
def lineStep : Line → BusEvent → Option Line
  | .fresh, .gpio_write pin 0 => some (.asserted pin)
  | .fresh, .gpio_write _ _ => some .fresh
  | .fresh, .tx _ => none
  | .fresh, .rx _ => none
  | .fresh, _ => some .fresh
  | .asserted _, .gpio_write _ 0 => none
  | .asserted pin, .gpio_write q _ => if q = pin then some .released else none
  | .asserted pin, _ => some (.asserted pin)
  | .released, .gpio_write pin 0 => some (.asserted pin)
  | .released, .gpio_write _ _ => none
  | .released, .tx _ => none
  | .released, .rx _ => none
  | .released, _ => some .released

/-- Run the discipline over a stretch of bus activity. -/
def lineRun : Line → Trace → Option Line
  | l, [] => some l
  | l, e :: rest =>
    match lineStep l e with
    | none => none
    | some l1 => lineRun l1 rest

/-- The bus activity of a call keeps the chip-select discipline: no event violates it and
no line is left asserted at the end. -/
def selectDiscipline (call : Trace) : Bool :=
  match lineRun .fresh call with
  | some (.asserted _) => false
  | some _ => true
  | none => false

/-- No line is asserted. -/
def Line.idle : Line → Bool
  | .asserted _ => false
  | _ => true

/-- A stretch of bus activity made of whole transactions: started with no line asserted it
keeps the discipline and ends with no line asserted, whatever follows. -/
def Sessions (c : Trace) : Prop :=
  ∀ l : Line, l.idle = true →
    ∃ l1 : Line, l1.idle = true ∧ ∀ rest : Trace, lineRun l (c ++ rest) = lineRun l1 rest

/-! ## Basic facts about the primitives -/

theorem read_status_eq (bus : Bus) (cs : Nat) (tr : Trace) :
    read_status bus cs tr =
      ((read_status bus cs tr).1, tr ++ statusEvents cs (read_status bus cs tr).1) := by
  simp [read_status, chip_select, chip_unselect, gpio_write, spi_tx8, spi_rx8, statusEvents,
    CMD_READ_STATUS]

theorem read_status_snd (bus : Bus) (cs : Nat) (tr : Trace) :
    (read_status bus cs tr).2 = tr ++ statusEvents cs (read_status bus cs tr).1 := by
  simp [read_status, chip_select, chip_unselect, gpio_write, spi_tx8, spi_rx8, statusEvents,
    CMD_READ_STATUS]

theorem flash_cmd_eq (cs op : Nat) (tr : Trace) :
    flash_cmd cs op tr = tr ++ cmdEvents cs (op % 256) := by
  simp [flash_cmd, chip_select, chip_unselect, gpio_write, spi_tx8, cmdEvents]

theorem write_enable_eq (cs : Nat) (tr : Trace) :
    write_enable cs tr = tr ++ cmdEvents cs CMD_WRITE_ENABLE := by
  simp [write_enable, flash_cmd_eq, CMD_WRITE_ENABLE]

theorem write_disable_eq (cs : Nat) (tr : Trace) :
    write_disable cs tr = tr ++ cmdEvents cs CMD_WRITE_DISABLE := by
  simp [write_disable, flash_cmd_eq, CMD_WRITE_DISABLE]

theorem arrayLoad_attached {st : Chips} {fd : Int} (h : Attached st fd) :
    ∃ cs, arrayLoad st.cs_pins fd = .ok cs ∧ st.cs_pins[fd.toNat]? = some cs := by
  obtain ⟨h0, h1, h2, h3, _⟩ := h
  have hlt : fd.toNat < st.cs_pins.length := by
    rw [h3]; omega
  refine ⟨st.cs_pins[fd.toNat], ?_, ?_⟩
  · simp [arrayLoad, List.getElem?_eq_getElem hlt]
    omega
  · exact List.getElem?_eq_getElem hlt

theorem fd_lt_max_of_attached {st : Chips} {fd : Int} (h : Attached st fd) :
    fd < (MAX_CHIPS : Int) := by
  obtain ⟨_, h1, h2, _, _⟩ := h
  omega

theorem rx_bytes_eq (bus : Bus) (n : Nat) (tr : Trace) :
    ∃ received : List Nat, received.length = n ∧
      rx_bytes bus n tr = (received, tr ++ received.map BusEvent.rx) := by
  induction n generalizing tr with
  | zero => exact ⟨[], rfl, by simp [rx_bytes]⟩
  | succ n ih =>
    obtain ⟨rest, hlen, hrest⟩ := ih (spi_rx8 bus tr).2
    refine ⟨(spi_rx8 bus tr).1 :: rest, by simp [hlen], ?_⟩
    simp [rx_bytes, hrest]
    simp [spi_rx8]

/-! ## Probe -/

theorem check_flash_cases (manufacturer jedecid : Nat) :
    check_flash manufacturer jedecid = .ok 0 ∨ check_flash manufacturer jedecid = .ok (-1) := by
  by_cases h : (0x20 = manufacturer ∧ 0x7114 = jedecid)
  · left
    simp [check_flash, check_flash_from, flashes, h, toI32]
  · right
    simp [check_flash, check_flash_from, flashes, h]

/-- C1 (the code at the failing inputs): from the empty table, `spiflash_probe` on a bus
whose every ID byte is 0xFF, and on a bus answering the ID (0xEF, 0x4016) that is not in the
registry, does not return -1: it returns handle 0 and attaches a chip, with `chip_count`
raised to 1, the pin stored in `cs_pins[0]` and 255 stored in `flash_types[0]`. -/
theorem probe_attaches_without_match :
    spiflash_probe (fun _ => 0xff) Chips.empty 5 [] =
        .ok (0, { cs_pins := [5, 0, 0, 0], flash_types := [255, 0, 0, 0], chip_count := 1 },
          [.gpio_enable 5, .gpio_write 5 1, .spi_init, .gpio_write 5 0, .tx 0x9f] ++
            List.replicate 20 (.rx 0xff) ++ [.gpio_write 5 1]) ∧
      spiflash_probe (idBus 0xef 0x4016) Chips.empty 5 [] =
        .ok (0, { cs_pins := [5, 0, 0, 0], flash_types := [255, 0, 0, 0], chip_count := 1 },
          [.gpio_enable 5, .gpio_write 5 1, .spi_init, .gpio_write 5 0, .tx 0x9f,
            .rx 0xef, .rx 0x40, .rx 0x16] ++
            List.replicate 17 (.rx 0) ++ [.gpio_write 5 1]) := by
  decide

/-- C5 (the code at the failing input): from the empty table, on a bus answering every
get-ID with the registry ID (0x20, 0x71, 0x14), four probes return the handles 0, 1, 2, 3
and leave `chip_count = 4`; a fifth probe does not return -1 with the table unchanged: it
stores to index 4 of the 4-element arrays `cs_pins`/`flash_types`, outside their bounds. -/
theorem fifth_probe_overruns_table :
    (probe_all (idBus 0x20 0x7114) [1, 2, 3, 4] Chips.empty []).map (fun r => (r.1, r.2.1)) =
        .ok ([0, 1, 2, 3],
          { cs_pins := [1, 2, 3, 4], flash_types := [0, 0, 0, 0], chip_count := 4 }) ∧
      (probe_all (idBus 0x20 0x7114) [1, 2, 3, 4, 5] Chips.empty []).map
          (fun r => (r.1, r.2.1)) = .error .outOfBounds ∧
      ∀ tr : Trace,
        spiflash_probe (idBus 0x20 0x7114)
          { cs_pins := [1, 2, 3, 4], flash_types := [0, 0, 0, 0], chip_count := 4 } 5 tr =
            .error .outOfBounds := by
  refine ⟨by decide, by decide, ?_⟩
  intro tr
  obtain ⟨received, _, hrx⟩ := rx_bytes_eq (idBus 0x20 0x7114) 20
    (spi_tx8 CMD_GETID (chip_select 5 (spi_init (chip_unselect 5 (gpio_enable 5 tr)))))
  unfold spiflash_probe
  simp only [hrx]
  simp only [List.getD_eq_getElem?_getD]
  rcases check_flash_cases (received[0]?.getD 0)
      ((received[1]?.getD 0 <<< 8 ||| received[2]?.getD 0) % 65536) with hc | hc <;>
    by_cases hff : received[0]?.getD 0 = 255 <;>
    simp [hc, hff, arrayStore]

/-- C6 (the code at the failing input): with one chip already attached, probing pin 6 on a
bus that returns the registry ID (0x20, 0x71, 0x14) yields handle 1 and stores registry
index 0 in `flash_types[1]`; yet `spiflash_info(1)` reports row 1 of the registry (the
end marker: manufacturer 0, device-id 0, size 0, null description) instead of row
`flash_types[1] = 0` (0x20, 0x7114, 1 MiB, "Micron M25PX80").  It leaves the bus trace as
it is. -/
theorem info_reads_row_of_handle :
    ∃ (st : Chips) (tr : Trace),
      spiflash_probe (idBus 0x20 0x7114) oneChip 6 [] = .ok (1, st, tr) ∧
      st.flash_types[1]? = some 0 ∧
      flashes[0]? = some { manufacturer := 0x20, jedecid := 0x7114, size := 1048576,
                           description := some "Micron M25PX80" } ∧
      spiflash_info 1 { manufacturer := some 1, jedecid := some 1, size := some 1,
                        descr := some (some "?") } tr =
        .ok ({ manufacturer := some 0, jedecid := some 0, size := some 0,
               descr := some none }, tr) :=
  ⟨_, _, rfl, by decide, by decide, by decide⟩

/-! ## Handle validation -/

/-- C3 (counterexample): handle 0 on the empty table (`chip_count = 0`, no probe has
returned it) is not rejected: `spiflash_chip_erase` returns true and `spiflash_read`
returns true, each after driving chip-select pin `cs_pins[0] = 0` and exchanging bytes. -/
theorem unattached_handle_drives_bus :
    ¬ Attached Chips.empty 0 ∧
      spiflash_chip_erase readyBus Chips.empty 1 0 [] =
        .ok (true, cmdEvents 0 CMD_WRITE_ENABLE ++ statusEvents 0 2 ++
          cmdEvents 0 CMD_ERASE_CHIP ++ statusEvents 0 2) ∧
      spiflash_read readyBus Chips.empty 0 0 1 (some [0]) [] =
        .ok (true, some [2],
          [.gpio_write 0 0, .tx 3, .tx 0, .tx 0, .tx 0, .rx 2, .gpio_write 0 1]) := by
  decide

/-- C3 (amended): for every handle `fd >= MAX_CHIPS`, each of `spiflash_read`,
`spiflash_write`, `spiflash_erase` and `spiflash_chip_erase` returns false and performs no
bus activity: the trace (and the read buffer) are returned as they were. -/
theorem handle_at_or_above_max_rejected (bus : Bus) (st : Chips) (fuel : Nat) (fd : Int)
    (address length : Nat) (buffer : List Nat) (tr : Trace)
    (hfd : (MAX_CHIPS : Int) ≤ fd) :
    spiflash_read bus st fd address length (some buffer) tr = .ok (false, some buffer, tr) ∧
      spiflash_write bus st fuel fd address length buffer tr = .ok (false, tr) ∧
      spiflash_erase bus st fuel fd address length tr = .ok (false, tr) ∧
      spiflash_chip_erase bus st fuel fd tr = .ok (false, tr) := by
  have hnot : ¬ fd < (MAX_CHIPS : Int) := by omega
  simp [spiflash_read, spiflash_write, spiflash_erase, spiflash_chip_erase, hnot]

theorem handle_at_or_above_max_rejected_witness :
    spiflash_read readyBus oneChip 4 0 8 (some [1, 2]) [] = .ok (false, some [1, 2], []) ∧
      spiflash_write readyBus oneChip 9 4 0 8 [1, 2] [] = .ok (false, []) ∧
      spiflash_erase readyBus oneChip 9 4 0 8 [] = .ok (false, []) ∧
      spiflash_chip_erase readyBus oneChip 9 4 [] = .ok (false, []) :=
  handle_at_or_above_max_rejected readyBus oneChip 9 4 0 8 [1, 2] [] (by decide)

/-! ## Write-enable latch not set -/

/-- C4: for an attached handle, on a bus whose every status read has bit 1 (write-enable
latch) clear, `spiflash_chip_erase`, `spiflash_write` and `spiflash_erase` (length >= 1,
address + length <= 2^24) each return false, and the bus activity of the call is exactly
one write-enable command followed by one status read: no byte 0x02, 0x20 or 0xC7 is
transmitted. -/
theorem wel_clear_fails_before_command (bus : Bus) (st : Chips) (fuel : Nat) (fd : Int)
    (address length : Nat) (buffer : List Nat) (tr : Trace)
    (hatt : Attached st fd)
    (hbus : ∀ (cs : Nat) (t : Trace), (read_status bus cs t).1 &&& STATUS_WEL = 0)
    (hlen : 1 ≤ length) (hrange : address + length ≤ 2 ^ 24) :
    ∃ (cs s : Nat) (call : Trace),
      st.cs_pins[fd.toNat]? = some cs ∧
      call = cmdEvents cs CMD_WRITE_ENABLE ++ statusEvents cs s ∧
      spiflash_chip_erase bus st fuel fd tr = .ok (false, tr ++ call) ∧
      spiflash_write bus st (fuel + 1) fd address length buffer tr = .ok (false, tr ++ call) ∧
      spiflash_erase bus st (fuel + 1) fd address length tr = .ok (false, tr ++ call) ∧
      (∀ b : Nat, BusEvent.tx b ∈ call →
        b ≠ CMD_PAGE_PROGRAM ∧ b ≠ CMD_ERASE_SUBSECTOR ∧ b ≠ CMD_ERASE_CHIP) ∧
      transactions call = [[CMD_WRITE_ENABLE], [CMD_READ_STATUS]] := by
  obtain ⟨cs, hload, hcs⟩ := arrayLoad_attached hatt
  have hfd := fd_lt_max_of_attached hatt
  have hwel := hbus cs (write_enable cs tr)
  have hremain : toI32 length > 0 := by
    have h1 : length < 2147483648 := by omega
    have h2 : length % 4294967296 = length := Nat.mod_eq_of_lt (by omega)
    simp only [toI32, h2, h1, if_true]
    omega
  have hend : (address + length) % 4294967296 > address &&& not32 (SUBSECTOR_SIZE - 1) := by
    have h2 : (address + length) % 4294967296 = address + length := Nat.mod_eq_of_lt (by omega)
    have h3 : address &&& not32 (SUBSECTOR_SIZE - 1) ≤ address := Nat.and_le_left
    omega
  refine ⟨cs, (read_status bus cs (write_enable cs tr)).1, _, hcs, rfl, ?_, ?_, ?_, ?_, ?_⟩
  · simp only [spiflash_chip_erase, hfd, if_true, hload, hwel]
    rw [read_status_snd, write_enable_eq]
    simp
  · simp only [spiflash_write, hfd, if_true, write_loop, hremain, hload, hwel]
    rw [read_status_snd, write_enable_eq]
    simp
  · simp only [spiflash_erase, hfd, if_true, erase_loop, hend, hload, hwel]
    rw [read_status_snd, write_enable_eq]
    simp
  · intro b hb
    simp [cmdEvents, statusEvents, CMD_WRITE_ENABLE, CMD_READ_STATUS] at hb
    rcases hb with hb | hb <;> subst hb <;> decide
  · simp [cmdEvents, statusEvents, transactions, txRun]

theorem wel_clear_fails_before_command_witness :
    ∃ (cs s : Nat) (call : Trace),
      oneChip.cs_pins[(0 : Int).toNat]? = some cs ∧
      call = cmdEvents cs CMD_WRITE_ENABLE ++ statusEvents cs s ∧
      spiflash_chip_erase (fun _ => 0) oneChip 3 0 [] = .ok (false, [] ++ call) ∧
      spiflash_write (fun _ => 0) oneChip (3 + 1) 0 0 300 [] [] = .ok (false, [] ++ call) ∧
      spiflash_erase (fun _ => 0) oneChip (3 + 1) 0 0 300 [] = .ok (false, [] ++ call) ∧
      (∀ b : Nat, BusEvent.tx b ∈ call →
        b ≠ CMD_PAGE_PROGRAM ∧ b ≠ CMD_ERASE_SUBSECTOR ∧ b ≠ CMD_ERASE_CHIP) ∧
      transactions call = [[CMD_WRITE_ENABLE], [CMD_READ_STATUS]] :=
  wel_clear_fails_before_command (fun _ => 0) oneChip 3 0 0 300 [] [] (by decide)
    (fun _ _ => by simp [read_status, spi_rx8]) (by decide) (by decide)

/-! ## Read -/

/-- C9: for an attached handle, every address, every length and a non-null buffer,
`spiflash_read` returns true and its whole bus activity is one transaction: assert the
select line of the chip, transmit 0x03, then address bits 23..16, 15..8 and 7..0, receive
exactly `length` bytes, deassert; the first `length` bytes of the buffer are the received
bytes in the order received. -/
theorem read_is_one_transaction (bus : Bus) (st : Chips) (fd : Int) (address length : Nat)
    (buffer : List Nat) (tr : Trace) (hatt : Attached st fd) :
    ∃ (cs : Nat) (received out : List Nat),
      st.cs_pins[fd.toNat]? = some cs ∧
      received.length = length ∧
      spiflash_read bus st fd address length (some buffer) tr =
        .ok (true, some out,
          tr ++ ([.gpio_write cs 0, .tx CMD_READ_DATA, .tx (address / 65536 % 256),
                  .tx (address / 256 % 256), .tx (address % 256)] ++
                 received.map BusEvent.rx ++ [.gpio_write cs 1])) ∧
      out.take length = received := by
  obtain ⟨cs, hload, hcs⟩ := arrayLoad_attached hatt
  have hfd := fd_lt_max_of_attached hatt
  obtain ⟨received, hlen, hrx⟩ := rx_bytes_eq bus length
    (spi_tx8 address (spi_tx8 (address >>> 8) (spi_tx8 (address >>> 16)
      (spi_tx8 CMD_READ_DATA (chip_select cs tr)))))
  refine ⟨cs, received, received ++ buffer.drop length, hcs, hlen, ?_, ?_⟩
  · simp only [spiflash_read, hfd, if_true, hload, hrx]
    simp [spi_tx8, chip_select, chip_unselect, gpio_write, CMD_READ_DATA,
      Nat.shiftRight_eq_div_pow]
  · rw [← hlen, List.take_left]

theorem read_is_one_transaction_witness :
    ∃ (cs : Nat) (received out : List Nat),
      oneChip.cs_pins[(0 : Int).toNat]? = some cs ∧
      received.length = 3 ∧
      spiflash_read readyBus oneChip 0 0x123456 3 (some [9, 9, 9, 9]) [] =
        .ok (true, some out,
          [] ++ ([.gpio_write cs 0, .tx CMD_READ_DATA, .tx (0x123456 / 65536 % 256),
                  .tx (0x123456 / 256 % 256), .tx (0x123456 % 256)] ++
                 received.map BusEvent.rx ++ [.gpio_write cs 1])) ∧
      out.take 3 = received :=
  read_is_one_transaction readyBus oneChip 0 0x123456 3 [9, 9, 9, 9] [] (by decide)

/-! ## Commands of a trace -/

theorem transactions_cmdEvents (cs op : Nat) (rest : Trace) :
    transactions (cmdEvents cs op ++ rest) = [op] :: transactions rest := by
  simp [cmdEvents, transactions, txRun]

theorem transactions_statusEvents (cs s : Nat) (rest : Trace) :
    transactions (statusEvents cs s ++ rest) = [CMD_READ_STATUS] :: transactions rest := by
  simp [statusEvents, transactions, txRun]

theorem transactions_polls (cs : Nat) (polls : List Nat) (rest : Trace) :
    transactions (polls.flatMap (statusEvents cs) ++ rest) =
      List.replicate polls.length [CMD_READ_STATUS] ++ transactions rest := by
  induction polls with
  | nil => simp
  | cons s polls ih =>
    simp only [List.flatMap_cons, List.append_assoc, transactions_statusEvents, ih,
      List.length_cons, List.replicate_succ, List.cons_append]

/-! ## Status polling -/

theorem status_polls_eq (bus : Bus) (cs : Nat) (k : Nat) (tr : Trace) :
    ∃ polls : List Nat, polls.length = k ∧
      status_polls bus cs k tr = tr ++ polls.flatMap (statusEvents cs) := by
  induction k generalizing tr with
  | zero => exact ⟨[], rfl, by simp [status_polls]⟩
  | succ k ih =>
    obtain ⟨polls, hlen, hp⟩ := ih (read_status bus cs tr).2
    refine ⟨(read_status bus cs tr).1 :: polls, by simp [hlen], ?_⟩
    rw [status_polls, hp, read_status_snd]
    simp

theorem chip_erase_loop_polls (bus : Bus) (cs : Nat) (n : Nat) (tr : Trace)
    (hbusy : ∀ k, k < n → (read_status bus cs (status_polls bus cs k tr)).1 &&& STATUS_WIP ≠ 0)
    (hclear : (read_status bus cs (status_polls bus cs n tr)).1 &&& STATUS_WIP = 0)
    (fuel : Nat) (hfuel : n < fuel) :
    chip_erase_loop bus cs fuel tr = .ok (true, status_polls bus cs (n + 1) tr) := by
  induction n generalizing tr fuel with
  | zero =>
    obtain ⟨f, rfl⟩ : ∃ f, fuel = f + 1 := ⟨fuel - 1, by omega⟩
    simp only [status_polls] at hclear
    simp [chip_erase_loop, hclear, status_polls]
  | succ n ih =>
    obtain ⟨f, rfl⟩ : ∃ f, fuel = f + 1 := ⟨fuel - 1, by omega⟩
    have h0 := hbusy 0 (by omega)
    simp only [status_polls] at h0
    have hrec := ih (read_status bus cs tr).2
      (fun k hk => by have := hbusy (k + 1) (by omega); simpa [status_polls] using this)
      (by simpa [status_polls] using hclear) f (by omega)
    rw [chip_erase_loop]
    simp only [h0, if_false, delay_ms]
    rw [hrec]
    simp [status_polls]

/-! ## Chip erase -/

/-- C10: for an attached handle on chip-select pin `cs` and every `n`: when the status
read that follows write-enable has the write-enable latch set, and the status reads after
the chip-erase command show write-in-progress set `n` times and then clear, then (with
fuel for more than `n` polls) `spiflash_chip_erase` returns true and its bus activity is
exactly one write-enable command (0x06), one status read (0x05), one chip-erase command
(0xC7) and then `n + 1` status reads: no second write-enable, no other command. -/
theorem chip_erase_trace (bus : Bus) (st : Chips) (fd : Int) (cs n : Nat) (tr : Trace)
    (hatt : Attached st fd) (hcs : st.cs_pins[fd.toNat]? = some cs)
    (hwel : (read_status bus cs (write_enable cs tr)).1 &&& STATUS_WEL ≠ 0)
    (hbusy : ∀ k, k < n →
      (read_status bus cs (status_polls bus cs k
        (flash_cmd cs CMD_ERASE_CHIP (read_status bus cs (write_enable cs tr)).2))).1
          &&& STATUS_WIP ≠ 0)
    (hclear :
      (read_status bus cs (status_polls bus cs n
        (flash_cmd cs CMD_ERASE_CHIP (read_status bus cs (write_enable cs tr)).2))).1
          &&& STATUS_WIP = 0) :
    ∃ (s0 : Nat) (polls : List Nat) (call : Trace),
      polls.length = n + 1 ∧
      call = cmdEvents cs CMD_WRITE_ENABLE ++ statusEvents cs s0 ++
        cmdEvents cs CMD_ERASE_CHIP ++ polls.flatMap (statusEvents cs) ∧
      (∀ fuel, n < fuel → spiflash_chip_erase bus st fuel fd tr = .ok (true, tr ++ call)) ∧
      transactions call =
        [CMD_WRITE_ENABLE] :: [CMD_READ_STATUS] :: [CMD_ERASE_CHIP] ::
          List.replicate (n + 1) [CMD_READ_STATUS] := by
  obtain ⟨cs', hload, hcs'⟩ := arrayLoad_attached hatt
  obtain rfl : cs' = cs := by rw [hcs] at hcs'; exact (Option.some.inj hcs').symm
  have hfd := fd_lt_max_of_attached hatt
  obtain ⟨polls, hlen, hp⟩ := status_polls_eq bus cs' (n + 1)
    (flash_cmd cs' CMD_ERASE_CHIP (read_status bus cs' (write_enable cs' tr)).2)
  refine ⟨(read_status bus cs' (write_enable cs' tr)).1, polls, _, hlen, rfl, ?_, ?_⟩
  · intro fuel hfuel
    simp only [spiflash_chip_erase, hfd, if_true, hload, hwel, if_false]
    rw [chip_erase_loop_polls bus cs' n _ hbusy hclear fuel hfuel, hp, flash_cmd_eq,
      read_status_snd, write_enable_eq]
    simp [CMD_ERASE_CHIP]
  · simp only [List.append_assoc, transactions_cmdEvents, transactions_statusEvents]
    have := transactions_polls cs' polls []
    simp only [List.append_nil] at this
    rw [this, hlen]
    simp [transactions]

theorem chip_erase_trace_witness :
    ∃ (s0 : Nat) (polls : List Nat) (call : Trace),
      polls.length = 2 + 1 ∧
      call = cmdEvents 5 CMD_WRITE_ENABLE ++ statusEvents 5 s0 ++
        cmdEvents 5 CMD_ERASE_CHIP ++ polls.flatMap (statusEvents 5) ∧
      (∀ fuel, 2 < fuel → spiflash_chip_erase slowBus oneChip fuel 0 [] = .ok (true, [] ++ call)) ∧
      transactions call =
        [CMD_WRITE_ENABLE] :: [CMD_READ_STATUS] :: [CMD_ERASE_CHIP] ::
          List.replicate (2 + 1) [CMD_READ_STATUS] :=
  chip_erase_trace slowBus oneChip 0 5 2 [] (by decide) (by decide) (by decide) (by decide)
    (by decide)

/-! ## Closed stretches of bus activity -/

theorem txRun_tx_append (bytes : List Nat) (cs level : Nat) (rest : Trace) :
    txRun (bytes.map BusEvent.tx ++ .gpio_write cs level :: rest) = bytes := by
  induction bytes with
  | nil => simp [txRun]
  | cons b bytes ih => simp [txRun, ih]

theorem transactions_tx_append (bytes : List Nat) (cs level : Nat) (rest : Trace) :
    transactions (bytes.map BusEvent.tx ++ .gpio_write cs level :: rest) =
      transactions (.gpio_write cs level :: rest) := by
  induction bytes with
  | nil => simp
  | cons b bytes ih => simp [transactions, ih]

theorem transactions_txEvents (cs : Nat) (bytes : List Nat) (rest : Trace) :
    transactions (txEvents cs bytes ++ rest) = bytes :: transactions rest := by
  simp only [txEvents, List.cons_append, List.append_assoc, List.singleton_append]
  rw [transactions, txRun_tx_append, transactions_tx_append]
  simp [transactions]

theorem closed_nil : Closed [] := by
  intro rest; simp [transactions]

theorem closed_append {a b : Trace} (ha : Closed a) (hb : Closed b) : Closed (a ++ b) := by
  intro rest
  rw [List.append_assoc, ha, hb, ha, List.append_assoc]

theorem closed_txEvents (cs : Nat) (bytes : List Nat) : Closed (txEvents cs bytes) := by
  intro rest
  have h := transactions_txEvents cs bytes []
  rw [List.append_nil] at h
  rw [transactions_txEvents, h]
  simp [transactions]

theorem closed_cmdEvents (cs op : Nat) : Closed (cmdEvents cs op) := by
  intro rest
  have h := transactions_cmdEvents cs op []
  rw [List.append_nil] at h
  rw [transactions_cmdEvents, h]
  simp [transactions]

theorem closed_statusEvents (cs s : Nat) : Closed (statusEvents cs s) := by
  intro rest
  have h := transactions_statusEvents cs s []
  rw [List.append_nil] at h
  rw [transactions_statusEvents, h]
  simp [transactions]

theorem closed_polls (cs : Nat) (polls : List Nat) :
    Closed (polls.flatMap (statusEvents cs)) := by
  intro rest
  have h := transactions_polls cs polls []
  rw [List.append_nil] at h
  rw [transactions_polls, h]
  simp [transactions]

theorem commandsWith_append {a : Trace} (ha : Closed a) (op : Nat) (b : Trace) :
    commandsWith op (a ++ b) = commandsWith op a ++ commandsWith op b := by
  simp [commandsWith, ha b]

theorem commandsWith_polls (cs : Nat) (polls : List Nat) (op : Nat)
    (hop : op ≠ CMD_READ_STATUS) :
    commandsWith op (polls.flatMap (statusEvents cs)) = [] := by
  have h := transactions_polls cs polls []
  rw [List.append_nil] at h
  simp only [transactions, List.append_nil] at h
  simp only [commandsWith, h, List.filter_eq_nil_iff]
  intro t ht
  rw [List.eq_of_mem_replicate ht]
  simp [hasOpcode]
  exact fun h => hop h.symm

/-! ## Busy polling -/

theorem wait_wip_of_clear (bus : Bus) (cs ms : Nat) (k : Nat) (tr : Trace)
    (hclear : (read_status bus cs (status_polls bus cs k tr)).1 &&& STATUS_WIP = 0) :
    ∃ j : Nat, j ≤ k ∧ ∀ fuel, k < fuel →
      wait_wip bus cs ms fuel tr = .ok (status_polls bus cs (j + 1) tr) := by
  induction k generalizing tr with
  | zero =>
    refine ⟨0, le_refl 0, ?_⟩
    intro fuel hfuel
    obtain ⟨f, rfl⟩ : ∃ f, fuel = f + 1 := ⟨fuel - 1, by omega⟩
    simp only [status_polls] at hclear
    simp [wait_wip, hclear, status_polls]
  | succ k ih =>
    by_cases h0 : (read_status bus cs tr).1 &&& STATUS_WIP = 0
    · refine ⟨0, Nat.zero_le _, ?_⟩
      intro fuel hfuel
      obtain ⟨f, rfl⟩ : ∃ f, fuel = f + 1 := ⟨fuel - 1, by omega⟩
      simp [wait_wip, h0, status_polls]
    · obtain ⟨j, hj, hrec⟩ := ih (read_status bus cs tr).2 (by simpa [status_polls] using hclear)
      refine ⟨j + 1, by omega, ?_⟩
      intro fuel hfuel
      obtain ⟨f, rfl⟩ : ∃ f, fuel = f + 1 := ⟨fuel - 1, by omega⟩
      rw [wait_wip]
      simp only [ne_eq, h0, not_false_eq_true, if_true, delay_ms]
      rw [hrec f (by omega)]
      simp [status_polls]

theorem wait_wip_terminates (bus : Bus) (cs ms : Nat) (hwip : WipEventuallyClear bus cs)
    (tr : Trace) :
    ∃ (f0 : Nat) (polls : List Nat), ∀ fuel, f0 ≤ fuel →
      wait_wip bus cs ms fuel tr = .ok (tr ++ polls.flatMap (statusEvents cs)) := by
  obtain ⟨k, hk⟩ := hwip tr
  obtain ⟨j, _, hj⟩ := wait_wip_of_clear bus cs ms k tr hk
  obtain ⟨polls, _, hp⟩ := status_polls_eq bus cs (j + 1) tr
  exact ⟨k + 1, polls, fun fuel hfuel => by rw [hj fuel (by omega), hp]⟩

theorem tx_chunk_eq (n : Nat) (buffer : List Nat) (tr : Trace) :
    ∃ (data rest : List Nat), data.length = n ∧
      tx_chunk n buffer tr = (rest, tr ++ data.map BusEvent.tx) := by
  induction n generalizing buffer tr with
  | zero => exact ⟨[], buffer, rfl, by simp [tx_chunk]⟩
  | succ n ih =>
    obtain ⟨data, rest, hlen, h⟩ := ih buffer.tail (spi_tx8 (buffer.headD 0) tr)
    refine ⟨(buffer.headD 0 % 256) :: data, rest, by simp [hlen], ?_⟩
    rw [tx_chunk, h]
    simp [spi_tx8]

/-! ## Page-programmed write -/

theorem pagePrograms_of_nil_length {a b : Nat} {l : List (List Nat)}
    (h : PagePrograms a l) (hab : l.length = 0 ∨ a = b) : PagePrograms b l := by
  rcases hab with h0 | rfl
  · rw [List.length_eq_zero] at h0
    subst h0
    trivial
  · exact h

theorem pagePrograms_index {a : Nat} {l : List (List Nat)} (h : PagePrograms a l) (k : Nat)
    (hk : k < l.length) :
    ∃ data : List Nat,
      l[k]? = some (addressed CMD_PAGE_PROGRAM (a + 256 * k) ++ data) ∧ data.length ≤ 256 := by
  induction l generalizing a k with
  | nil => simp at hk
  | cons t ts ih =>
    obtain ⟨⟨data, ht, hdata⟩, hrest⟩ := h
    cases k with
    | zero => exact ⟨data, by simp [ht], hdata⟩
    | succ k =>
      obtain ⟨d, hd, hlen⟩ := ih hrest k (by simpa using hk)
      refine ⟨d, ?_, hlen⟩
      rw [List.getElem?_cons_succ, hd]
      congr 3
      ring

theorem write_loop_done (bus : Bus) (st : Chips) (fd : Int) (fuel : Nat) (remain : Int)
    (address : Nat) (buffer : List Nat) (tr : Trace) (h : remain ≤ 0) :
    write_loop bus st fd (fuel + 1) remain address buffer tr = .ok (true, tr) := by
  have : ¬ remain > 0 := by omega
  simp [write_loop, this]

theorem write_loop_step (bus : Bus) (st : Chips) (fd : Int) (cs : Nat)
    (hload : arrayLoad st.cs_pins fd = .ok cs) (hwel : WelAfterWriteEnable bus cs)
    (remain : Int) (address : Nat) (buffer : List Nat) (tr : Trace)
    (hpos : remain > 0) :
    ∃ (s : Nat) (data rest : List Nat), data.length ≤ 255 ∧ ∀ fuel : Nat,
      write_loop bus st fd (fuel + 1) remain address buffer tr =
        match wait_wip bus cs 1 fuel
          (tr ++ (cmdEvents cs CMD_WRITE_ENABLE ++ statusEvents cs s ++
            txEvents cs (addressed CMD_PAGE_PROGRAM address ++ data) ++
            cmdEvents cs CMD_WRITE_DISABLE)) with
        | .error e => .error e
        | .ok tr1 =>
          write_loop bus st fd fuel (remain - 256) ((address + 256) % 4294967296) rest tr1 := by
  obtain ⟨data, rest, hlen, hchunk⟩ :=
    tx_chunk_eq ((if remain > PAGE_PROGRAM_SIZE then (PAGE_PROGRAM_SIZE : Int) else remain).toNat % 256)
      buffer
      (spi_tx8 address (spi_tx8 (address >>> 8) (spi_tx8 (address >>> 16)
        (spi_tx8 CMD_PAGE_PROGRAM (chip_select cs (read_status bus cs (write_enable cs tr)).2)))))
  have hbound : data.length ≤ 255 := by
    rw [hlen]
    have := Nat.mod_lt
      (if remain > PAGE_PROGRAM_SIZE then (PAGE_PROGRAM_SIZE : Int) else remain).toNat
      (show 256 > 0 by decide)
    omega
  refine ⟨(read_status bus cs (write_enable cs tr)).1, data, rest, hbound, ?_⟩
  intro fuel
  have hw := hwel tr
  rw [write_loop]
  simp only [hpos, if_true, hload, hw, if_false, hchunk]
  rw [read_status_snd, write_enable_eq, write_disable_eq]
  simp [spi_tx8, chip_select, chip_unselect, gpio_write, txEvents, addressed, cmdEvents,
    statusEvents, CMD_PAGE_PROGRAM, PAGE_PROGRAM_SIZE, Nat.shiftRight_eq_div_pow]

theorem write_loop_pages (bus : Bus) (st : Chips) (fd : Int) (cs : Nat)
    (hload : arrayLoad st.cs_pins fd = .ok cs)
    (hwel : WelAfterWriteEnable bus cs) (hwip : WipEventuallyClear bus cs) (n : Nat) :
    ∀ (remain : Int) (address : Nat) (buffer : List Nat) (tr : Trace),
      remain ≤ 256 * (n : Int) → -256 < remain → (address : Int) + remain ≤ 4294967296 →
      ∃ (f0 : Nat) (call : Trace),
        (∀ fuel, f0 ≤ fuel →
          write_loop bus st fd fuel remain address buffer tr = .ok (true, tr ++ call)) ∧
        Closed call ∧
        (commandsWith CMD_PAGE_PROGRAM call).length = ((remain + 255) / 256).toNat ∧
        PagePrograms address (commandsWith CMD_PAGE_PROGRAM call) := by
  induction n with
  | zero =>
    intro remain address buffer tr h1 h2 _
    refine ⟨1, [], ?_, closed_nil, ?_, ?_⟩
    · intro fuel hfuel
      obtain ⟨f, rfl⟩ : ∃ f, fuel = f + 1 := ⟨fuel - 1, by omega⟩
      rw [write_loop_done _ _ _ _ _ _ _ _ (by omega)]
      simp
    · have : ((remain + 255) / 256).toNat = 0 := by omega
      simp [commandsWith, transactions, this]
    · simp [commandsWith, transactions, PagePrograms]
  | succ n ih =>
    intro remain address buffer tr h1 h2 h3
    by_cases hpos : remain > 0
    · obtain ⟨s, data, rest, hdata, hstep⟩ :=
        write_loop_step bus st fd cs hload hwel remain address buffer tr hpos
      obtain ⟨fw, polls, hw⟩ := wait_wip_terminates bus cs 1 hwip
        (tr ++ (cmdEvents cs CMD_WRITE_ENABLE ++ statusEvents cs s ++
            txEvents cs (addressed CMD_PAGE_PROGRAM address ++ data) ++
            cmdEvents cs CMD_WRITE_DISABLE))
      obtain ⟨f1, call1, hrun, hclosed, hcount, hpages⟩ :=
        ih (remain - 256) ((address + 256) % 4294967296) rest
          ((tr ++ (cmdEvents cs CMD_WRITE_ENABLE ++ statusEvents cs s ++
            txEvents cs (addressed CMD_PAGE_PROGRAM address ++ data) ++
            cmdEvents cs CMD_WRITE_DISABLE)) ++ polls.flatMap (statusEvents cs))
          (by omega) (by omega) (by omega)
      have hiter : Closed (cmdEvents cs CMD_WRITE_ENABLE ++ statusEvents cs s ++
            txEvents cs (addressed CMD_PAGE_PROGRAM address ++ data) ++
            cmdEvents cs CMD_WRITE_DISABLE ++ polls.flatMap (statusEvents cs)) :=
        closed_append (closed_append (closed_append (closed_append (closed_cmdEvents _ _)
          (closed_statusEvents _ _)) (closed_txEvents _ _)) (closed_cmdEvents _ _))
          (closed_polls _ _)
      have hcmds : commandsWith CMD_PAGE_PROGRAM
          (cmdEvents cs CMD_WRITE_ENABLE ++ statusEvents cs s ++
            txEvents cs (addressed CMD_PAGE_PROGRAM address ++ data) ++
            cmdEvents cs CMD_WRITE_DISABLE ++ polls.flatMap (statusEvents cs) ++ call1) =
          (addressed CMD_PAGE_PROGRAM address ++ data) ::
            commandsWith CMD_PAGE_PROGRAM call1 := by
        rw [commandsWith_append hiter,
          commandsWith_append (closed_append (closed_append (closed_append
            (closed_cmdEvents _ _) (closed_statusEvents _ _)) (closed_txEvents _ _))
            (closed_cmdEvents _ _)),
          commandsWith_polls _ _ _ (by decide)]
        have h4 : transactions (cmdEvents cs CMD_WRITE_DISABLE) = [[CMD_WRITE_DISABLE]] := by
          have h := transactions_cmdEvents cs CMD_WRITE_DISABLE []
          rw [List.append_nil] at h
          rw [h]; rfl
        simp only [commandsWith, List.append_assoc, transactions_cmdEvents,
          transactions_statusEvents, transactions_txEvents, h4]
        simp [hasOpcode, addressed, CMD_WRITE_ENABLE, CMD_READ_STATUS, CMD_PAGE_PROGRAM,
          CMD_WRITE_DISABLE]
      refine ⟨max fw f1 + 1,
        cmdEvents cs CMD_WRITE_ENABLE ++ statusEvents cs s ++
            txEvents cs (addressed CMD_PAGE_PROGRAM address ++ data) ++
            cmdEvents cs CMD_WRITE_DISABLE ++ polls.flatMap (statusEvents cs) ++ call1,
        ?_, closed_append hiter hclosed, ?_, ?_⟩
      · intro fuel hfuel
        obtain ⟨f, rfl⟩ : ∃ f, fuel = f + 1 := ⟨fuel - 1, by omega⟩
        rw [hstep f, hw f (by omega)]
        simp only []
        rw [hrun f (by omega)]
        simp
      · rw [hcmds, List.length_cons, hcount]
        omega
      · rw [hcmds]
        refine ⟨⟨data, rfl, by omega⟩, ?_⟩
        apply pagePrograms_of_nil_length hpages
        by_cases hlast : remain ≤ 256
        · left
          rw [hcount]
          omega
        · right
          omega
    · refine ⟨1, [], ?_, closed_nil, ?_, ?_⟩
      · intro fuel hfuel
        obtain ⟨f, rfl⟩ : ∃ f, fuel = f + 1 := ⟨fuel - 1, by omega⟩
        rw [write_loop_done _ _ _ _ _ _ _ _ (by omega)]
        simp
      · have : ((remain + 255) / 256).toNat = 0 := by omega
        simp [commandsWith, transactions, this]
      · simp [commandsWith, transactions, PagePrograms]

/-- C7: for an attached handle on chip-select pin `cs`, every address and every length
`L > 256` with `address + L <= 2^24`, on a bus that shows the write-enable latch set after
each write-enable and write-in-progress eventually clear: with enough fuel
`spiflash_write` returns true, and the page-program commands (0x02) of its bus activity are
exactly `ceil(L/256)` many, at least two; the `k`-th one carries the 3-byte big-endian
address `address + 256*k`, followed by at most 256 data bytes. -/
theorem write_issues_page_programs (bus : Bus) (st : Chips) (fd : Int) (cs : Nat)
    (address length : Nat) (buffer : List Nat) (tr : Trace)
    (hatt : Attached st fd) (hcs : st.cs_pins[fd.toNat]? = some cs)
    (hwel : WelAfterWriteEnable bus cs) (hwip : WipEventuallyClear bus cs)
    (hlen : 256 < length) (hrange : address + length ≤ 2 ^ 24) :
    ∃ (f0 : Nat) (call : Trace),
      (∀ fuel, f0 ≤ fuel →
        spiflash_write bus st fuel fd address length buffer tr = .ok (true, tr ++ call)) ∧
      (commandsWith CMD_PAGE_PROGRAM call).length = (length + 255) / 256 ∧
      2 ≤ (commandsWith CMD_PAGE_PROGRAM call).length ∧
      ∀ k, k < (length + 255) / 256 →
        ∃ data : List Nat,
          (commandsWith CMD_PAGE_PROGRAM call)[k]? =
            some (addressed CMD_PAGE_PROGRAM (address + 256 * k) ++ data) ∧
          data.length ≤ 256 := by
  obtain ⟨cs', hload, hcs'⟩ := arrayLoad_attached hatt
  obtain rfl : cs' = cs := by rw [hcs] at hcs'; exact (Option.some.inj hcs').symm
  have hfd := fd_lt_max_of_attached hatt
  have hremain : toI32 length = (length : Int) := by
    have h1 : length < 2147483648 := by omega
    have h2 : length % 4294967296 = length := Nat.mod_eq_of_lt (by omega)
    simp only [toI32, h2, h1, if_true]
  obtain ⟨f0, call, hrun, _, hcount, hpages⟩ :=
    write_loop_pages bus st fd cs' hload hwel hwip length (length : Int) address buffer tr
      (by omega) (by omega) (by omega)
  have hcount' : (commandsWith CMD_PAGE_PROGRAM call).length = (length + 255) / 256 := by
    rw [hcount]; omega
  refine ⟨f0, call, ?_, hcount', by omega, ?_⟩
  · intro fuel hfuel
    simp only [spiflash_write, hfd, if_true, hremain]
    exact hrun fuel hfuel
  · intro k hk
    exact pagePrograms_index hpages k (by omega)

theorem write_issues_page_programs_witness :
    ∃ (f0 : Nat) (call : Trace),
      (∀ fuel, f0 ≤ fuel →
        spiflash_write readyBus oneChip fuel 0 0 300 (List.range 300) [] =
          .ok (true, [] ++ call)) ∧
      (commandsWith CMD_PAGE_PROGRAM call).length = (300 + 255) / 256 ∧
      2 ≤ (commandsWith CMD_PAGE_PROGRAM call).length ∧
      ∀ k, k < (300 + 255) / 256 →
        ∃ data : List Nat,
          (commandsWith CMD_PAGE_PROGRAM call)[k]? =
            some (addressed CMD_PAGE_PROGRAM (0 + 256 * k) ++ data) ∧
          data.length ≤ 256 :=
  write_issues_page_programs readyBus oneChip 0 5 0 300 (List.range 300) [] (by decide)
    (by decide)
    (fun tr => by simp [read_status, spi_rx8, readyBus, STATUS_WEL])
    (fun tr => ⟨0, by simp [read_status, spi_rx8, readyBus, STATUS_WEL, STATUS_WIP]⟩)
    (by decide) (by decide)

/-! ## Sub-sector erase -/

theorem and_not32_subsector (address : Nat) (h : address < 4294967296) :
    address &&& not32 (SUBSECTOR_SIZE - 1) = address / 4096 * 4096 := by
  have hmask : not32 (SUBSECTOR_SIZE - 1) = 2 ^ 12 * (2 ^ 20 - 1) := by decide
  have hrhs : address / 4096 * 4096 = 2 ^ 12 * (address >>> 12) := by
    rw [Nat.shiftRight_eq_div_pow]; ring
  rw [hmask, hrhs]
  apply Nat.eq_of_testBit_eq
  intro i
  rw [Nat.testBit_and, Nat.testBit_mul_pow_two, Nat.testBit_mul_pow_two,
    Nat.testBit_two_pow_sub_one, Nat.testBit_shiftRight]
  by_cases h12 : i ≥ 12
  · by_cases h32 : i - 12 < 20
    · have : 12 + (i - 12) = i := by omega
      simp [h12, h32, this]
    · have hi : address < 2 ^ i :=
        lt_of_lt_of_le h (by
          have : (4294967296 : Nat) = 2 ^ 32 := by norm_num
          rw [this]
          exact Nat.pow_le_pow_right (by decide) (by omega))
      have hbit : address.testBit i = false := Nat.testBit_lt_two_pow hi
      have : 12 + (i - 12) = i := by omega
      simp [h12, h32, this, hbit]
  · simp [h12]

theorem eraseCommands_append {a : Trace} (ha : Closed a) (b : Trace) :
    eraseCommands (a ++ b) = eraseCommands a ++ eraseCommands b := by
  simp [eraseCommands, ha b]

theorem eraseCommands_polls (cs : Nat) (polls : List Nat) :
    eraseCommands (polls.flatMap (statusEvents cs)) = [] := by
  have h := transactions_polls cs polls []
  rw [List.append_nil] at h
  simp only [transactions, List.append_nil] at h
  simp only [eraseCommands, h, List.filter_eq_nil_iff]
  intro t ht
  rw [List.eq_of_mem_replicate ht]
  decide

theorem transactions_cmdEvents_only (cs op : Nat) :
    transactions (cmdEvents cs op) = [[op]] := by
  have h := transactions_cmdEvents cs op []
  rw [List.append_nil] at h
  rw [h]; rfl

theorem transactions_txEvents_only (cs : Nat) (bytes : List Nat) :
    transactions (txEvents cs bytes) = [bytes] := by
  have h := transactions_txEvents cs bytes []
  rw [List.append_nil] at h
  rw [h]; rfl

theorem erase_loop_done (bus : Bus) (cs : Nat) (fuel : Nat) (end_address aligned : Nat)
    (tr : Trace) (h : end_address ≤ aligned) :
    erase_loop bus cs (fuel + 1) end_address aligned tr = .ok (true, tr) := by
  have : ¬ end_address > aligned := by omega
  simp [erase_loop, this]

theorem erase_loop_step (bus : Bus) (cs : Nat) (hwel : WelAfterWriteEnable bus cs)
    (end_address aligned : Nat) (tr : Trace) (hpos : end_address > aligned) :
    ∃ s : Nat, ∀ fuel : Nat,
      erase_loop bus cs (fuel + 1) end_address aligned tr =
        match wait_wip bus cs 5 fuel
          (tr ++ (cmdEvents cs CMD_WRITE_ENABLE ++ statusEvents cs s ++
            txEvents cs (addressed CMD_ERASE_SUBSECTOR aligned))) with
        | .error e => .error e
        | .ok tr1 =>
          erase_loop bus cs fuel end_address ((aligned + 4096) % 4294967296) tr1 := by
  refine ⟨(read_status bus cs (write_enable cs tr)).1, ?_⟩
  intro fuel
  have hw := hwel tr
  rw [erase_loop]
  simp only [hpos, if_true, hw, if_false]
  rw [read_status_snd, write_enable_eq]
  simp [spi_tx8, chip_select, chip_unselect, gpio_write, txEvents, addressed, cmdEvents,
    statusEvents, CMD_ERASE_SUBSECTOR, SUBSECTOR_SIZE, delay_ms, Nat.shiftRight_eq_div_pow]

theorem erase_loop_subsectors (bus : Bus) (cs : Nat)
    (hwel : WelAfterWriteEnable bus cs) (hwip : WipEventuallyClear bus cs)
    (end_address : Nat) (hend : end_address + 4096 ≤ 4294967296) (n : Nat) :
    ∀ (aligned : Nat) (tr : Trace), end_address ≤ aligned + 4096 * n →
      ∃ (f0 : Nat) (call : Trace),
        (∀ fuel, f0 ≤ fuel →
          erase_loop bus cs fuel end_address aligned tr = .ok (true, tr ++ call)) ∧
        Closed call ∧
        eraseCommands call =
          (List.range ((end_address - aligned + 4095) / 4096)).map
            (fun i => addressed CMD_ERASE_SUBSECTOR (aligned + 4096 * i)) := by
  induction n with
  | zero =>
    intro aligned tr h1
    refine ⟨1, [], ?_, closed_nil, ?_⟩
    · intro fuel hfuel
      obtain ⟨f, rfl⟩ : ∃ f, fuel = f + 1 := ⟨fuel - 1, by omega⟩
      rw [erase_loop_done _ _ _ _ _ _ (by omega)]
      simp
    · have : (end_address - aligned + 4095) / 4096 = 0 := by omega
      simp [eraseCommands, transactions, this]
  | succ n ih =>
    intro aligned tr h1
    by_cases hpos : end_address > aligned
    · obtain ⟨s, hstep⟩ := erase_loop_step bus cs hwel end_address aligned tr hpos
      obtain ⟨fw, polls, hw⟩ := wait_wip_terminates bus cs 5 hwip
        (tr ++ (cmdEvents cs CMD_WRITE_ENABLE ++ statusEvents cs s ++
            txEvents cs (addressed CMD_ERASE_SUBSECTOR aligned)))
      have hnext : (aligned + 4096) % 4294967296 = aligned + 4096 :=
        Nat.mod_eq_of_lt (by omega)
      obtain ⟨f1, call1, hrun, hclosed, hcmds1⟩ :=
        ih (aligned + 4096)
          ((tr ++ (cmdEvents cs CMD_WRITE_ENABLE ++ statusEvents cs s ++
            txEvents cs (addressed CMD_ERASE_SUBSECTOR aligned))) ++
              polls.flatMap (statusEvents cs))
          (by omega)
      have hiter : Closed (cmdEvents cs CMD_WRITE_ENABLE ++ statusEvents cs s ++
            txEvents cs (addressed CMD_ERASE_SUBSECTOR aligned) ++
            polls.flatMap (statusEvents cs)) :=
        closed_append (closed_append (closed_append (closed_cmdEvents _ _)
          (closed_statusEvents _ _)) (closed_txEvents _ _)) (closed_polls _ _)
      have hcmds : eraseCommands
          (cmdEvents cs CMD_WRITE_ENABLE ++ statusEvents cs s ++
            txEvents cs (addressed CMD_ERASE_SUBSECTOR aligned) ++
            polls.flatMap (statusEvents cs) ++ call1) =
          addressed CMD_ERASE_SUBSECTOR aligned :: eraseCommands call1 := by
        rw [eraseCommands_append hiter,
          eraseCommands_append (closed_append (closed_append
            (closed_cmdEvents _ _) (closed_statusEvents _ _)) (closed_txEvents _ _)),
          eraseCommands_polls]
        simp only [eraseCommands, List.append_assoc, transactions_cmdEvents,
          transactions_statusEvents, transactions_txEvents_only]
        simp [hasOpcode, addressed, CMD_WRITE_ENABLE, CMD_READ_STATUS, CMD_ERASE_SUBSECTOR,
          CMD_ERASE_SECTOR, CMD_ERASE_CHIP]
      refine ⟨max fw f1 + 1,
        cmdEvents cs CMD_WRITE_ENABLE ++ statusEvents cs s ++
            txEvents cs (addressed CMD_ERASE_SUBSECTOR aligned) ++
            polls.flatMap (statusEvents cs) ++ call1,
        ?_, closed_append hiter hclosed, ?_⟩
      · intro fuel hfuel
        obtain ⟨f, rfl⟩ : ∃ f, fuel = f + 1 := ⟨fuel - 1, by omega⟩
        rw [hstep f, hw f (by omega)]
        simp only [hnext]
        rw [hrun f (by omega)]
        simp
      · rw [hcmds, hcmds1]
        have hc : (end_address - aligned + 4095) / 4096 =
            (end_address - (aligned + 4096) + 4095) / 4096 + 1 := by omega
        rw [hc, List.range_succ_eq_map, List.map_cons, List.map_map, Nat.mul_zero,
          Nat.add_zero, List.cons.injEq]
        refine ⟨rfl, List.map_congr_left ?_⟩
        intro i _
        have hi : aligned + 4096 + 4096 * i = aligned + 4096 * (i + 1) := by ring
        simp only [Function.comp, Nat.succ_eq_add_one, hi]
    · refine ⟨1, [], ?_, closed_nil, ?_⟩
      · intro fuel hfuel
        obtain ⟨f, rfl⟩ : ∃ f, fuel = f + 1 := ⟨fuel - 1, by omega⟩
        rw [erase_loop_done _ _ _ _ _ _ (by omega)]
        simp
      · have : (end_address - aligned + 4095) / 4096 = 0 := by omega
        simp [eraseCommands, transactions, this]

/-- C8: for an attached handle on chip-select pin `cs`, every address and every length
`>= 1` with `address + length <= 2^24`, on a bus that shows the write-enable latch set after
each write-enable and write-in-progress eventually clear: with enough fuel `spiflash_erase`
returns true, and the erase commands of its bus activity are exactly one sub-sector erase
(0x20) per 4096-byte sub-sector intersecting `[address, address + length)`, in ascending
order, each with the start `4096 * s` of the sub-sector as 3-byte big-endian address; there is no
other erase command. -/
theorem erase_issues_subsector_erases (bus : Bus) (st : Chips) (fd : Int) (cs : Nat)
    (address length : Nat) (tr : Trace)
    (hatt : Attached st fd) (hcs : st.cs_pins[fd.toNat]? = some cs)
    (hwel : WelAfterWriteEnable bus cs) (hwip : WipEventuallyClear bus cs)
    (hlen : 1 ≤ length) (hrange : address + length ≤ 2 ^ 24) :
    ∃ (f0 : Nat) (call : Trace),
      (∀ fuel, f0 ≤ fuel →
        spiflash_erase bus st fuel fd address length tr = .ok (true, tr ++ call)) ∧
      eraseCommands call =
        (List.range' (address / 4096)
            ((address + length - 1) / 4096 - address / 4096 + 1)).map
          (fun s => addressed CMD_ERASE_SUBSECTOR (4096 * s)) ∧
      ∀ s, s ∈ List.range' (address / 4096)
            ((address + length - 1) / 4096 - address / 4096 + 1) ↔
          (4096 * s < address + length ∧ address < 4096 * (s + 1)) := by
  obtain ⟨cs', hload, hcs'⟩ := arrayLoad_attached hatt
  obtain rfl : cs' = cs := by rw [hcs] at hcs'; exact (Option.some.inj hcs').symm
  have hfd := fd_lt_max_of_attached hatt
  have haligned := and_not32_subsector address (by omega)
  have hend : (address + length) % 4294967296 = address + length :=
    Nat.mod_eq_of_lt (by omega)
  obtain ⟨f0, call, hrun, hclosed, hcmds⟩ :=
    erase_loop_subsectors bus cs' hwel hwip (address + length) (by omega)
      (address + length) (address / 4096 * 4096) tr (by omega)
  refine ⟨f0, call ++ cmdEvents cs' CMD_WRITE_DISABLE, ?_, ?_, ?_⟩
  · intro fuel hfuel
    simp only [spiflash_erase, hfd, if_true, hload, haligned, hend, hrun fuel hfuel,
      write_disable_eq, List.append_assoc]
  · rw [eraseCommands_append hclosed, hcmds]
    have hwd : eraseCommands (cmdEvents cs' CMD_WRITE_DISABLE) = [] := by
      simp only [eraseCommands, transactions_cmdEvents_only]
      decide
    have hc : (address + length - address / 4096 * 4096 + 4095) / 4096 =
        (address + length - 1) / 4096 - address / 4096 + 1 := by omega
    rw [hwd, List.append_nil, hc, List.range'_eq_map_range, List.map_map]
    apply List.map_congr_left
    intro i _
    have hi : address / 4096 * 4096 + 4096 * i = 4096 * (address / 4096 + i) := by ring
    simp only [Function.comp, hi]
  · intro s
    rw [List.mem_range'_1]
    constructor
    · intro h; omega
    · intro h; omega

theorem erase_issues_subsector_erases_witness :
    ∃ (f0 : Nat) (call : Trace),
      (∀ fuel, f0 ≤ fuel →
        spiflash_erase readyBus oneChip fuel 0 4000 200 [] = .ok (true, [] ++ call)) ∧
      eraseCommands call =
        (List.range' (4000 / 4096)
            ((4000 + 200 - 1) / 4096 - 4000 / 4096 + 1)).map
          (fun s => addressed CMD_ERASE_SUBSECTOR (4096 * s)) ∧
      ∀ s, s ∈ List.range' (4000 / 4096)
            ((4000 + 200 - 1) / 4096 - 4000 / 4096 + 1) ↔
          (4096 * s < 4000 + 200 ∧ 4000 < 4096 * (s + 1)) :=
  erase_issues_subsector_erases readyBus oneChip 0 5 4000 200 [] (by decide) (by decide)
    (fun tr => by simp [read_status, spi_rx8, readyBus, STATUS_WEL])
    (fun tr => ⟨0, by simp [read_status, spi_rx8, readyBus, STATUS_WEL, STATUS_WIP]⟩)
    (by decide) (by decide)

/-- The two erase examples of the specification, evaluated: length 10 at address 4100
gives one sub-sector erase, at 4096 (0x001000); length 200 at address 4000 gives two, at 0
and at 4096. -/
theorem erase_examples :
    (spiflash_erase readyBus oneChip 3 0 4100 10 []).map (fun r => (r.1, eraseCommands r.2)) =
        .ok (true, [[0x20, 0x00, 0x10, 0x00]]) ∧
      (spiflash_erase readyBus oneChip 3 0 4000 200 []).map
          (fun r => (r.1, eraseCommands r.2)) =
        .ok (true, [[0x20, 0x00, 0x00, 0x00], [0x20, 0x00, 0x10, 0x00]]) := by
  decide

/-- The write example of the specification, evaluated: 300 bytes at address 0 give two
page-program commands, at 0 and at 256 (0x000100); the first carries no data byte and the
second the first 44 bytes of the buffer. -/
theorem write_example :
    (spiflash_write readyBus oneChip 3 0 0 300 (List.range 300) []).map
        (fun r => (r.1, commandsWith CMD_PAGE_PROGRAM r.2)) =
      .ok (true, [[0x02, 0x00, 0x00, 0x00], [0x02, 0x00, 0x01, 0x00] ++ List.range 44]) := by
  decide

/-! ## Round trip on the simulated flash -/

/-- C2 (the code at the failing input): on the simulated flash, erased to 0xFF, with one chip
attached, `spiflash_write(0, 0, 256, data)` with 256 bytes 0xAB returns true, but its single
page-program command carries the address and no data byte at all; the following
`spiflash_read(0, 0, 256, out)` returns true and fills `out` with 256 bytes 0xFF, not with
`data`. -/
theorem full_page_write_sends_no_data :
    spiflash_write (simBus erasedMem) oneChip 2 0 0 256 (List.replicate 256 0xab) [] =
        .ok (true,
          cmdEvents 5 CMD_WRITE_ENABLE ++ statusEvents 5 2 ++
            txEvents 5 [CMD_PAGE_PROGRAM, 0, 0, 0] ++
            cmdEvents 5 CMD_WRITE_DISABLE ++ statusEvents 5 2) ∧
      (spiflash_read (simBus erasedMem) oneChip 0 0 256 (some (List.replicate 256 0))
          (cmdEvents 5 CMD_WRITE_ENABLE ++ statusEvents 5 2 ++
            txEvents 5 [CMD_PAGE_PROGRAM, 0, 0, 0] ++
            cmdEvents 5 CMD_WRITE_DISABLE ++ statusEvents 5 2)).map (fun r => (r.1, r.2.1)) =
        .ok (true, some (List.replicate 256 0xff)) ∧
      List.replicate 256 0xff ≠ List.replicate 256 0xab := by
  refine ⟨by decide, ?_, by decide⟩
  set_option maxRecDepth 100000 in decide

/-- A write shorter than a page does round-trip on the simulated flash: five bytes
written at address 256 and read back from there. -/
theorem short_write_round_trip :
    spiflash_write (simBus erasedMem) oneChip 2 0 256 5 [1, 2, 3, 4, 5] [] =
        .ok (true,
          cmdEvents 5 CMD_WRITE_ENABLE ++ statusEvents 5 2 ++
            txEvents 5 [CMD_PAGE_PROGRAM, 0, 1, 0, 1, 2, 3, 4, 5] ++
            cmdEvents 5 CMD_WRITE_DISABLE ++ statusEvents 5 2) ∧
      (spiflash_read (simBus erasedMem) oneChip 0 256 5 (some [0, 0, 0, 0, 0])
          (cmdEvents 5 CMD_WRITE_ENABLE ++ statusEvents 5 2 ++
            txEvents 5 [CMD_PAGE_PROGRAM, 0, 1, 0, 1, 2, 3, 4, 5] ++
            cmdEvents 5 CMD_WRITE_DISABLE ++ statusEvents 5 2)).map (fun r => (r.1, r.2.1)) =
        .ok (true, some [1, 2, 3, 4, 5]) := by
  decide


/-! ## Chip-select discipline -/

theorem lineRun_tx (pin : Nat) (bytes : List Nat) (rest : Trace) :
    lineRun (.asserted pin) (bytes.map BusEvent.tx ++ rest) = lineRun (.asserted pin) rest := by
  induction bytes with
  | nil => rfl
  | cons b bytes ih => simpa [lineRun, lineStep] using ih

theorem lineRun_rx (pin : Nat) (bytes : List Nat) (rest : Trace) :
    lineRun (.asserted pin) (bytes.map BusEvent.rx ++ rest) = lineRun (.asserted pin) rest := by
  induction bytes with
  | nil => rfl
  | cons b bytes ih => simpa [lineRun, lineStep] using ih

theorem lineRun_select {l : Line} (hl : l.idle = true) (pin : Nat) (rest : Trace) :
    lineRun l (.gpio_write pin 0 :: rest) = lineRun (.asserted pin) rest := by
  cases l with
  | fresh => simp [lineRun, lineStep]
  | asserted p => simp [Line.idle] at hl
  | released => simp [lineRun, lineStep]

theorem lineRun_unselect (pin : Nat) (rest : Trace) :
    lineRun (.asserted pin) (.gpio_write pin 1 :: rest) = lineRun .released rest := by
  simp [lineRun, lineStep]

theorem sessions_nil : Sessions [] :=
  fun l hl => ⟨l, hl, fun _ => rfl⟩

theorem sessions_append {a b : Trace} (ha : Sessions a) (hb : Sessions b) :
    Sessions (a ++ b) := by
  intro l hl
  obtain ⟨l1, hl1, h1⟩ := ha l hl
  obtain ⟨l2, hl2, h2⟩ := hb l1 hl1
  exact ⟨l2, hl2, fun rest => by rw [List.append_assoc, h1, h2]⟩

theorem sessions_transfer (cs : Nat) (sent received : List Nat) :
    Sessions (.gpio_write cs 0 ::
      (sent.map BusEvent.tx ++ (received.map BusEvent.rx ++ [.gpio_write cs 1]))) := by
  intro l hl
  refine ⟨.released, rfl, fun rest => ?_⟩
  rw [List.cons_append, lineRun_select hl, List.append_assoc, lineRun_tx, List.append_assoc,
    lineRun_rx, List.singleton_append, lineRun_unselect]

theorem sessions_txEvents (cs : Nat) (bytes : List Nat) : Sessions (txEvents cs bytes) := by
  have h := sessions_transfer cs bytes []
  simpa [txEvents] using h

theorem sessions_cmdEvents (cs op : Nat) : Sessions (cmdEvents cs op) := by
  have h := sessions_transfer cs [op] []
  simpa [cmdEvents] using h

theorem sessions_statusEvents (cs s : Nat) : Sessions (statusEvents cs s) := by
  have h := sessions_transfer cs [CMD_READ_STATUS] [s]
  simpa [statusEvents] using h

theorem sessions_polls (cs : Nat) (polls : List Nat) :
    Sessions (polls.flatMap (statusEvents cs)) := by
  induction polls with
  | nil => exact sessions_nil
  | cons s polls ih =>
    rw [List.flatMap_cons]
    exact sessions_append (sessions_statusEvents cs s) ih

theorem selectDiscipline_of_sessions {c : Trace} (h : Sessions c) :
    selectDiscipline c = true := by
  obtain ⟨l1, hl1, hrun⟩ := h .fresh rfl
  have h0 := hrun []
  rw [List.append_nil] at h0
  rw [selectDiscipline, h0]
  cases l1 with
  | fresh => rfl
  | asserted p => simp [Line.idle] at hl1
  | released => rfl

/-! ## Loops that return -/

theorem wait_wip_returns (bus : Bus) (cs ms : Nat) (fuel : Nat) :
    ∀ (tr tr1 : Trace), wait_wip bus cs ms fuel tr = .ok tr1 →
      ∃ polls : List Nat, tr1 = tr ++ polls.flatMap (statusEvents cs) := by
  induction fuel with
  | zero => intro tr tr1 h; simp [wait_wip] at h
  | succ fuel ih =>
    intro tr tr1 h
    rw [wait_wip] at h
    by_cases hbusy : (read_status bus cs tr).1 &&& STATUS_WIP = 0
    · simp only [ne_eq, hbusy, not_true_eq_false, if_false, Except.ok.injEq] at h
      refine ⟨[(read_status bus cs tr).1], ?_⟩
      rw [← h, read_status_snd]
      simp
    · simp only [ne_eq, hbusy, not_false_eq_true, if_true, delay_ms] at h
      obtain ⟨polls, hp⟩ := ih _ _ h
      refine ⟨(read_status bus cs tr).1 :: polls, ?_⟩
      rw [hp, read_status_snd]
      simp

theorem chip_erase_loop_returns (bus : Bus) (cs : Nat) (fuel : Nat) :
    ∀ (tr : Trace) (r : Bool × Trace), chip_erase_loop bus cs fuel tr = .ok r →
      ∃ polls : List Nat, r.2 = tr ++ polls.flatMap (statusEvents cs) := by
  induction fuel with
  | zero => intro tr r h; simp [chip_erase_loop] at h
  | succ fuel ih =>
    intro tr r h
    rw [chip_erase_loop] at h
    by_cases hbusy : (read_status bus cs tr).1 &&& STATUS_WIP = 0
    · simp only [hbusy, if_true, Except.ok.injEq] at h
      refine ⟨[(read_status bus cs tr).1], ?_⟩
      rw [← h, read_status_snd]
      simp
    · simp only [hbusy, if_false, delay_ms] at h
      obtain ⟨polls, hp⟩ := ih _ _ h
      refine ⟨(read_status bus cs tr).1 :: polls, ?_⟩
      rw [hp, read_status_snd]
      simp

theorem write_loop_iter (bus : Bus) (st : Chips) (fd : Int) (cs : Nat)
    (hload : arrayLoad st.cs_pins fd = .ok cs)
    (remain : Int) (address : Nat) (buffer : List Nat) (tr : Trace)
    (hw : (read_status bus cs (write_enable cs tr)).1 &&& STATUS_WEL ≠ 0)
    (hpos : remain > 0) :
    ∃ (s : Nat) (data rest : List Nat), ∀ fuel : Nat,
      write_loop bus st fd (fuel + 1) remain address buffer tr =
        match wait_wip bus cs 1 fuel
          (tr ++ (cmdEvents cs CMD_WRITE_ENABLE ++ statusEvents cs s ++
            txEvents cs (addressed CMD_PAGE_PROGRAM address ++ data) ++
            cmdEvents cs CMD_WRITE_DISABLE)) with
        | .error e => .error e
        | .ok tr1 =>
          write_loop bus st fd fuel (remain - 256) ((address + 256) % 4294967296) rest tr1 := by
  obtain ⟨data, rest, _, hchunk⟩ :=
    tx_chunk_eq ((if remain > PAGE_PROGRAM_SIZE then (PAGE_PROGRAM_SIZE : Int) else remain).toNat % 256)
      buffer
      (spi_tx8 address (spi_tx8 (address >>> 8) (spi_tx8 (address >>> 16)
        (spi_tx8 CMD_PAGE_PROGRAM (chip_select cs (read_status bus cs (write_enable cs tr)).2)))))
  refine ⟨(read_status bus cs (write_enable cs tr)).1, data, rest, ?_⟩
  intro fuel
  rw [write_loop]
  simp only [hpos, if_true, hload, hw, if_false, hchunk]
  rw [read_status_snd, write_enable_eq, write_disable_eq]
  simp [spi_tx8, chip_select, chip_unselect, gpio_write, txEvents, addressed, cmdEvents,
    statusEvents, CMD_PAGE_PROGRAM, PAGE_PROGRAM_SIZE, Nat.shiftRight_eq_div_pow]

theorem write_loop_returns (bus : Bus) (st : Chips) (fd : Int) (fuel : Nat) :
    ∀ (remain : Int) (address : Nat) (buffer : List Nat) (tr : Trace) (r : Bool × Trace),
      write_loop bus st fd fuel remain address buffer tr = .ok r →
      ∃ call : Trace, r.2 = tr ++ call ∧ Sessions call := by
  induction fuel with
  | zero => intro remain address buffer tr r h; simp [write_loop] at h
  | succ fuel ih =>
    intro remain address buffer tr r h
    by_cases hpos : remain > 0
    · cases hload : arrayLoad st.cs_pins fd with
      | error e =>
        rw [write_loop] at h
        simp [hpos, hload] at h
      | ok cs =>
        by_cases hw : (read_status bus cs (write_enable cs tr)).1 &&& STATUS_WEL = 0
        · rw [write_loop] at h
          simp only [hpos, if_true, hload, hw, Except.ok.injEq] at h
          refine ⟨cmdEvents cs CMD_WRITE_ENABLE ++
            statusEvents cs (read_status bus cs (write_enable cs tr)).1, ?_,
            sessions_append (sessions_cmdEvents _ _) (sessions_statusEvents _ _)⟩
          rw [← h, read_status_snd, write_enable_eq]
          simp
        · obtain ⟨s, data, rest, hstep⟩ :=
            write_loop_iter bus st fd cs hload remain address buffer tr hw hpos
          rw [hstep fuel] at h
          cases hwait : wait_wip bus cs 1 fuel
              (tr ++ (cmdEvents cs CMD_WRITE_ENABLE ++ statusEvents cs s ++
                txEvents cs (addressed CMD_PAGE_PROGRAM address ++ data) ++
                cmdEvents cs CMD_WRITE_DISABLE)) with
          | error e => rw [hwait] at h; cases h
          | ok tr1 =>
            rw [hwait] at h
            dsimp only at h
            obtain ⟨polls, hp⟩ := wait_wip_returns bus cs 1 fuel _ _ hwait
            obtain ⟨call1, hcall, hs⟩ := ih _ _ _ _ _ h
            refine ⟨cmdEvents cs CMD_WRITE_ENABLE ++ statusEvents cs s ++
                txEvents cs (addressed CMD_PAGE_PROGRAM address ++ data) ++
                cmdEvents cs CMD_WRITE_DISABLE ++ polls.flatMap (statusEvents cs) ++ call1,
              ?_, ?_⟩
            · rw [hcall, hp]
              simp
            · exact sessions_append (sessions_append (sessions_append (sessions_append
                (sessions_append (sessions_cmdEvents _ _) (sessions_statusEvents _ _))
                (sessions_txEvents _ _)) (sessions_cmdEvents _ _)) (sessions_polls _ _)) hs
    · rw [write_loop] at h
      simp only [hpos, if_false, Except.ok.injEq] at h
      exact ⟨[], by rw [← h]; simp, sessions_nil⟩

theorem erase_loop_iter (bus : Bus) (cs : Nat)
    (end_address aligned : Nat) (tr : Trace)
    (hw : (read_status bus cs (write_enable cs tr)).1 &&& STATUS_WEL ≠ 0)
    (hpos : end_address > aligned) :
    ∃ s : Nat, ∀ fuel : Nat,
      erase_loop bus cs (fuel + 1) end_address aligned tr =
        match wait_wip bus cs 5 fuel
          (tr ++ (cmdEvents cs CMD_WRITE_ENABLE ++ statusEvents cs s ++
            txEvents cs (addressed CMD_ERASE_SUBSECTOR aligned))) with
        | .error e => .error e
        | .ok tr1 =>
          erase_loop bus cs fuel end_address ((aligned + 4096) % 4294967296) tr1 := by
  refine ⟨(read_status bus cs (write_enable cs tr)).1, ?_⟩
  intro fuel
  rw [erase_loop]
  simp only [hpos, if_true, hw, if_false]
  rw [read_status_snd, write_enable_eq]
  simp [spi_tx8, chip_select, chip_unselect, gpio_write, txEvents, addressed, cmdEvents,
    statusEvents, CMD_ERASE_SUBSECTOR, SUBSECTOR_SIZE, delay_ms, Nat.shiftRight_eq_div_pow]

theorem erase_loop_returns (bus : Bus) (cs : Nat) (fuel : Nat) :
    ∀ (end_address aligned : Nat) (tr : Trace) (r : Bool × Trace),
      erase_loop bus cs fuel end_address aligned tr = .ok r →
      ∃ call : Trace, r.2 = tr ++ call ∧ Sessions call := by
  induction fuel with
  | zero => intro end_address aligned tr r h; simp [erase_loop] at h
  | succ fuel ih =>
    intro end_address aligned tr r h
    by_cases hpos : end_address > aligned
    · by_cases hw : (read_status bus cs (write_enable cs tr)).1 &&& STATUS_WEL = 0
      · rw [erase_loop] at h
        simp only [hpos, if_true, hw, Except.ok.injEq] at h
        refine ⟨cmdEvents cs CMD_WRITE_ENABLE ++
          statusEvents cs (read_status bus cs (write_enable cs tr)).1, ?_,
          sessions_append (sessions_cmdEvents _ _) (sessions_statusEvents _ _)⟩
        rw [← h, read_status_snd, write_enable_eq]
        simp
      · obtain ⟨s, hstep⟩ := erase_loop_iter bus cs end_address aligned tr hw hpos
        rw [hstep fuel] at h
        cases hwait : wait_wip bus cs 5 fuel
            (tr ++ (cmdEvents cs CMD_WRITE_ENABLE ++ statusEvents cs s ++
              txEvents cs (addressed CMD_ERASE_SUBSECTOR aligned))) with
        | error e => rw [hwait] at h; cases h
        | ok tr1 =>
          rw [hwait] at h
          dsimp only at h
          obtain ⟨polls, hp⟩ := wait_wip_returns bus cs 5 fuel _ _ hwait
          obtain ⟨call1, hcall, hs⟩ := ih _ _ _ _ h
          refine ⟨cmdEvents cs CMD_WRITE_ENABLE ++ statusEvents cs s ++
              txEvents cs (addressed CMD_ERASE_SUBSECTOR aligned) ++
              polls.flatMap (statusEvents cs) ++ call1, ?_, ?_⟩
          · rw [hcall, hp]
            simp
          · exact sessions_append (sessions_append (sessions_append
              (sessions_append (sessions_cmdEvents _ _) (sessions_statusEvents _ _))
              (sessions_txEvents _ _)) (sessions_polls _ _)) hs
    · rw [erase_loop] at h
      simp only [hpos, if_false, Except.ok.injEq] at h
      exact ⟨[], by rw [← h]; simp, sessions_nil⟩

theorem probe_returns (bus : Bus) (st : Chips) (cs_pin : Nat) (tr : Trace)
    (r : Int × Chips × Trace) (h : spiflash_probe bus st cs_pin tr = .ok r) :
    ∃ received : List Nat,
      r.2.2 = tr ++ ([.gpio_enable cs_pin, .gpio_write cs_pin 1, .spi_init] ++
        (.gpio_write cs_pin 0 ::
          ([CMD_GETID].map BusEvent.tx ++
            (received.map BusEvent.rx ++ [.gpio_write cs_pin 1])))) := by
  obtain ⟨received, _, hrx⟩ := rx_bytes_eq bus 20
    (spi_tx8 CMD_GETID (chip_select cs_pin (spi_init (chip_unselect cs_pin
      (gpio_enable cs_pin tr)))))
  refine ⟨received, ?_⟩
  have htrace : chip_unselect cs_pin
      (spi_tx8 CMD_GETID (chip_select cs_pin (spi_init (chip_unselect cs_pin
        (gpio_enable cs_pin tr)))) ++ received.map BusEvent.rx) =
      tr ++ ([.gpio_enable cs_pin, .gpio_write cs_pin 1, .spi_init] ++
        (.gpio_write cs_pin 0 ::
          ([CMD_GETID].map BusEvent.tx ++
            (received.map BusEvent.rx ++ [.gpio_write cs_pin 1])))) := by
    simp [chip_unselect, chip_select, gpio_write, gpio_enable, spi_init, spi_tx8, CMD_GETID]
  unfold spiflash_probe at h
  simp only [hrx] at h
  rw [← htrace]
  repeat' split at h
  all_goals first
    | (cases h; rfl)
    | cases h

theorem selectDiscipline_probe (cs_pin : Nat) (received : List Nat) :
    selectDiscipline ([.gpio_enable cs_pin, .gpio_write cs_pin 1, .spi_init] ++
        (.gpio_write cs_pin 0 ::
          ([CMD_GETID].map BusEvent.tx ++
            (received.map BusEvent.rx ++ [.gpio_write cs_pin 1])))) = true := by
  obtain ⟨l1, hl1, hrun⟩ := sessions_transfer cs_pin [CMD_GETID] received .fresh rfl
  have h0 : lineRun .fresh (.gpio_write cs_pin 0 ::
          ([CMD_GETID].map BusEvent.tx ++
            (received.map BusEvent.rx ++ [.gpio_write cs_pin 1]))) = some l1 := by
    have h := hrun []
    rw [List.append_nil] at h
    exact h
  have hpre : lineRun .fresh ([.gpio_enable cs_pin, .gpio_write cs_pin 1, .spi_init] ++
        (.gpio_write cs_pin 0 ::
          ([CMD_GETID].map BusEvent.tx ++
            (received.map BusEvent.rx ++ [.gpio_write cs_pin 1])))) = some l1 := by
    rw [← h0]
    rfl
  rw [selectDiscipline, hpre]
  cases l1 with
  | fresh => rfl
  | asserted p => simp [Line.idle] at hl1
  | released => rfl

/-! ## Chip-select pairing of every public operation -/

/-- C11: for each of `spiflash_probe`, `spiflash_read`, `spiflash_write`, `spiflash_erase`
and `spiflash_chip_erase`, every bus and every input: whenever the call returns (with
either result, the write-enable-failure returns included), its bus activity keeps the
chip-select discipline: every assertion is answered by exactly one deassertion, of the same
pin, before the next assertion and before the return; every byte is transmitted or
received while a line is asserted; no line is asserted when the call returns. -/
theorem chip_select_paired (bus : Bus) (st : Chips) (fuel : Nat) (fd : Int)
    (cs_pin address length : Nat) (rbuf : Option (List Nat)) (wbuf : List Nat) (tr : Trace) :
    (∀ r, spiflash_probe bus st cs_pin tr = .ok r →
        ∃ call : Trace, r.2.2 = tr ++ call ∧ selectDiscipline call = true) ∧
      (∀ r, spiflash_read bus st fd address length rbuf tr = .ok r →
        ∃ call : Trace, r.2.2 = tr ++ call ∧ selectDiscipline call = true) ∧
      (∀ r, spiflash_write bus st fuel fd address length wbuf tr = .ok r →
        ∃ call : Trace, r.2 = tr ++ call ∧ selectDiscipline call = true) ∧
      (∀ r, spiflash_erase bus st fuel fd address length tr = .ok r →
        ∃ call : Trace, r.2 = tr ++ call ∧ selectDiscipline call = true) ∧
      (∀ r, spiflash_chip_erase bus st fuel fd tr = .ok r →
        ∃ call : Trace, r.2 = tr ++ call ∧ selectDiscipline call = true) := by
  refine ⟨?_, ?_, ?_, ?_, ?_⟩
  · intro r h
    obtain ⟨received, hr⟩ := probe_returns bus st cs_pin tr r h
    exact ⟨_, hr, selectDiscipline_probe cs_pin received⟩
  · intro r h
    cases rbuf with
    | none =>
      simp only [spiflash_read, Except.ok.injEq] at h
      exact ⟨[], by rw [← h]; simp, rfl⟩
    | some buf =>
      by_cases hfd : fd < (MAX_CHIPS : Int)
      · cases hload : arrayLoad st.cs_pins fd with
        | error e => simp [spiflash_read, hfd, hload] at h
        | ok cs =>
          obtain ⟨received, _, hrx⟩ := rx_bytes_eq bus length
            (spi_tx8 address (spi_tx8 (address >>> 8) (spi_tx8 (address >>> 16)
              (spi_tx8 CMD_READ_DATA (chip_select cs tr)))))
          simp only [spiflash_read, hfd, if_true, hload, hrx, Except.ok.injEq] at h
          refine ⟨.gpio_write cs 0 ::
            ([CMD_READ_DATA, address >>> 16 % 256, address >>> 8 % 256, address % 256].map
                BusEvent.tx ++ (received.map BusEvent.rx ++ [.gpio_write cs 1])), ?_,
            selectDiscipline_of_sessions (sessions_transfer _ _ _)⟩
          rw [← h]
          simp [spi_tx8, chip_select, chip_unselect, gpio_write, CMD_READ_DATA]
      · simp only [spiflash_read, hfd, if_false, Except.ok.injEq] at h
        exact ⟨[], by rw [← h]; simp, rfl⟩
  · intro r h
    by_cases hfd : fd < (MAX_CHIPS : Int)
    · simp only [spiflash_write, hfd, if_true] at h
      obtain ⟨call, hcall, hs⟩ := write_loop_returns bus st fd fuel _ _ _ _ _ h
      exact ⟨call, hcall, selectDiscipline_of_sessions hs⟩
    · simp only [spiflash_write, hfd, if_false, Except.ok.injEq] at h
      exact ⟨[], by rw [← h]; simp, rfl⟩
  · intro r h
    by_cases hfd : fd < (MAX_CHIPS : Int)
    · cases hload : arrayLoad st.cs_pins fd with
      | error e => simp [spiflash_erase, hfd, hload] at h
      | ok cs =>
        simp only [spiflash_erase, hfd, if_true, hload] at h
        cases hloop : erase_loop bus cs fuel ((address + length) % 4294967296)
            (address &&& not32 (SUBSECTOR_SIZE - 1)) tr with
        | error e => rw [hloop] at h; cases h
        | ok r1 =>
          obtain ⟨call, hcall, hs⟩ := erase_loop_returns bus cs fuel _ _ _ _ hloop
          rw [hloop] at h
          obtain ⟨b, tr1⟩ := r1
          cases b with
          | false =>
            simp only [Except.ok.injEq] at h
            exact ⟨call, by rw [← h]; exact hcall, selectDiscipline_of_sessions hs⟩
          | true =>
            simp only [Except.ok.injEq] at h
            refine ⟨call ++ cmdEvents cs CMD_WRITE_DISABLE, ?_,
              selectDiscipline_of_sessions (sessions_append hs (sessions_cmdEvents _ _))⟩
            have hcall1 : tr1 = tr ++ call := hcall
            rw [← h, write_disable_eq, hcall1, List.append_assoc]
    · simp only [spiflash_erase, hfd, if_false, Except.ok.injEq] at h
      exact ⟨[], by rw [← h]; simp, rfl⟩
  · intro r h
    by_cases hfd : fd < (MAX_CHIPS : Int)
    · cases hload : arrayLoad st.cs_pins fd with
      | error e => simp [spiflash_chip_erase, hfd, hload] at h
      | ok cs =>
        simp only [spiflash_chip_erase, hfd, if_true, hload] at h
        by_cases hw : (read_status bus cs (write_enable cs tr)).1 &&& STATUS_WEL = 0
        · simp only [hw, if_true, Except.ok.injEq] at h
          refine ⟨cmdEvents cs CMD_WRITE_ENABLE ++
            statusEvents cs (read_status bus cs (write_enable cs tr)).1, ?_,
            selectDiscipline_of_sessions
              (sessions_append (sessions_cmdEvents _ _) (sessions_statusEvents _ _))⟩
          rw [← h, read_status_snd, write_enable_eq]
          simp
        · simp only [hw, if_false] at h
          obtain ⟨polls, hp⟩ := chip_erase_loop_returns bus cs fuel _ _ h
          refine ⟨cmdEvents cs CMD_WRITE_ENABLE ++
            statusEvents cs (read_status bus cs (write_enable cs tr)).1 ++
            cmdEvents cs CMD_ERASE_CHIP ++ polls.flatMap (statusEvents cs), ?_,
            selectDiscipline_of_sessions
              (sessions_append (sessions_append (sessions_append (sessions_cmdEvents _ _)
                (sessions_statusEvents _ _)) (sessions_cmdEvents _ _)) (sessions_polls _ _))⟩
          rw [hp, flash_cmd_eq, read_status_snd, write_enable_eq]
          simp [CMD_ERASE_CHIP]
    · simp only [spiflash_chip_erase, hfd, if_false, Except.ok.injEq] at h
      exact ⟨[], by rw [← h]; simp, rfl⟩

theorem chip_select_paired_witness :
    (∃ call : Trace,
        ([.gpio_enable 5, .gpio_write 5 1, .spi_init, .gpio_write 5 0, .tx 0x9f,
            .rx 0x20, .rx 0x71, .rx 0x14] ++ List.replicate 17 (.rx 0) ++
          [.gpio_write 5 1] : Trace) = [] ++ call ∧ selectDiscipline call = true) ∧
      (∃ call : Trace,
        ([.gpio_write 5 0, .tx 3, .tx 0, .tx 0, .tx 0, .rx 2, .rx 2, .gpio_write 5 1] : Trace) =
          [] ++ call ∧ selectDiscipline call = true) ∧
      (∃ call : Trace,
        cmdEvents 5 CMD_WRITE_ENABLE ++ statusEvents 5 0 = [] ++ call ∧
          selectDiscipline call = true) ∧
      (∃ call : Trace,
        cmdEvents 5 CMD_WRITE_ENABLE ++ statusEvents 5 2 ++
            txEvents 5 [CMD_ERASE_SUBSECTOR, 0x00, 0x10, 0x00] ++ statusEvents 5 2 ++
            cmdEvents 5 CMD_WRITE_DISABLE = [] ++ call ∧
          selectDiscipline call = true) ∧
      (∃ call : Trace,
        cmdEvents 5 CMD_WRITE_ENABLE ++ statusEvents 5 3 ++ cmdEvents 5 CMD_ERASE_CHIP ++
            statusEvents 5 3 ++ statusEvents 5 3 ++ statusEvents 5 2 = [] ++ call ∧
          selectDiscipline call = true) :=
  ⟨(chip_select_paired (idBus 0x20 0x7114) Chips.empty 0 0 5 0 0 none [] []).1
      (0, { cs_pins := [5, 0, 0, 0], flash_types := [0, 0, 0, 0], chip_count := 1 },
        [.gpio_enable 5, .gpio_write 5 1, .spi_init, .gpio_write 5 0, .tx 0x9f,
            .rx 0x20, .rx 0x71, .rx 0x14] ++ List.replicate 17 (.rx 0) ++
          [.gpio_write 5 1]) (by decide),
    (chip_select_paired readyBus oneChip 0 0 5 0 2 (some [0, 0]) [] []).2.1
      (true, some [2, 2],
        [.gpio_write 5 0, .tx 3, .tx 0, .tx 0, .tx 0, .rx 2, .rx 2, .gpio_write 5 1])
      (by decide),
    (chip_select_paired (fun _ => 0) oneChip 3 0 5 0 300 none [] []).2.2.1
      (false, cmdEvents 5 CMD_WRITE_ENABLE ++ statusEvents 5 0) (by decide),
    (chip_select_paired readyBus oneChip 3 0 5 4100 10 none [] []).2.2.2.1
      (true, cmdEvents 5 CMD_WRITE_ENABLE ++ statusEvents 5 2 ++
            txEvents 5 [CMD_ERASE_SUBSECTOR, 0x00, 0x10, 0x00] ++ statusEvents 5 2 ++
            cmdEvents 5 CMD_WRITE_DISABLE) (by decide),
    (chip_select_paired slowBus oneChip 3 0 5 0 0 none [] []).2.2.2.2
      (true, cmdEvents 5 CMD_WRITE_ENABLE ++ statusEvents 5 3 ++ cmdEvents 5 CMD_ERASE_CHIP ++
            statusEvents 5 3 ++ statusEvents 5 3 ++ statusEvents 5 2) (by decide)⟩

end SpiFlash
